import Mathlib

/-! Piano for EasyPIC: note buffer, key resolver and tick handler.

A shallow embedding of `pianoForEasyPIC.c` (mikroC PRO for PIC, PIC18 target).

* C `unsigned` is 16 bits wide on this target: arithmetic on `unsigned` values is
  taken modulo `UWORD = 2 ^ 16`; `unsigned char` is 8 bits wide.
* The global arrays `freq`, `dur`, `portbs`, `portcs`, `portds` are maps from an index
  to the stored value; the bound `bufferLength` of the arrays is the parameter `N` of
  the buffer operations (`bufferLength = 128` in the source).
* Hardware inputs (the sampled `PORTB`, `PORTC`, `PORTD`, the Timer0 flag and the
  result of `Button(&PORTA, 1, 1, 0)`) are arguments of the operations; hardware
  outputs (`Sound_Play` calls, port and TRIS writes) are collected in a trace of
  `Event`s.
-/

namespace Piano

/-! ## Data model -/

/-- Number of values of the C type `unsigned` (16 bits on the PIC18 target). -/
def UWORD : Nat := 65536

/-- The table of tone frequencies, C-major scale from C4 to B6 (lines 24-27). -/
def frequencies : List Nat :=
  [262, 294, 330, 349, 392, 440, 494,
   523, 587, 659, 698, 784, 880, 988,
   1046, 1174, 1318, 1397, 1568, 1760, 1976]

/-- The length of the note buffer (line 30). -/
def bufferLength : Nat := 128

/-- The global variables of the program (lines 32-42) and the recording indicator
bit `PORTA.b5`. -/
structure State where
  freq : Nat → Nat
  dur : Nat → Nat
  portbs : Nat → Nat
  portcs : Nat → Nat
  portds : Nat → Nat
  first : Nat
  last : Nat
  duration : Nat
  frequency : Nat
  maskB : Nat
  maskC : Nat
  maskD : Nat
  iter : Nat
  PORTA_b5 : Bool

/-- A recorded note: the five values stored in one slot of the five arrays. -/
structure Note where
  f : Nat
  d : Nat
  portb : Nat
  portc : Nat
  portd : Nat
  deriving DecidableEq

/-- Array assignment `a[i] = v`. -/
def write (a : Nat → Nat) (i v : Nat) : Nat → Nat :=
  fun j => if j = i then v else a j

/-- The note held in slot `i` of the five arrays. -/
def noteAt (s : State) (i : Nat) : Note :=
  { f := s.freq i, d := s.dur i, portb := s.portbs i, portc := s.portcs i,
    portd := s.portds i }

/-- An all-zero memory image with the given scalar values, used for concrete runs. -/
def zeroState : State :=
  { freq := fun _ => 0, dur := fun _ => 0, portbs := fun _ => 0, portcs := fun _ => 0,
    portds := fun _ => 0, first := 0, last := 0, duration := 0, frequency := 0,
    maskB := 0, maskC := 0, maskD := 0, iter := 0, PORTA_b5 := false }

/-! ## Initialisation (lines 48-56) -/

/-- Source `keyboardInit`: no buttons are pressed at first. -/
def keyboardInit (s : State) : State :=
  { s with maskB := 0, maskC := 0, maskD := 0 }

/-- Source `bufferInit`: recording off, no current note, buffer empty. -/
def bufferInit (s : State) : State :=
  { s with PORTA_b5 := false, frequency := 0, duration := 0, first := 0, last := 0 }

/-- The statement `PORTA.b5 = 1` of the main loop (line 189): recording on. -/
def recordOn (s : State) : State :=
  { s with PORTA_b5 := true }

/-- The statement `PORTA.b5 = 0` of the main loop (line 191): recording off. -/
def recordOff (s : State) : State :=
  { s with PORTA_b5 := false }

/-! ## The circular buffer (lines 60-84) -/

/-- Source `bufferAdd` (lines 60-79). The arguments range over the values of their C
parameter types, so they are stored as passed. The index arithmetic is the C
expression `(last + 1) % bufferLength` on 16-bit `unsigned`. -/
def bufferAdd (N : Nat) (s : State) (f d portbb portcc portdd : Nat) : State :=
  if (s.last + 1) % UWORD % N = s.first % N then
    { s with
      freq := write s.freq s.last f
      dur := write s.dur s.last d
      portbs := write s.portbs s.last portbb
      portcs := write s.portcs s.last portcc
      portds := write s.portds s.last portdd
      last := (s.last + 1) % UWORD % N
      first := (s.first + 1) % UWORD % N }
  else
    { s with
      freq := write s.freq s.last f
      dur := write s.dur s.last d
      portbs := write s.portbs s.last portbb
      portcs := write s.portcs s.last portcc
      portds := write s.portds s.last portdd
      last := (s.last + 1) % UWORD % N }

/-- Source `bufferErase` (lines 82-84). -/
def bufferErase (s : State) : State :=
  { s with last := s.first }

/-- Calls `bufferAdd` on each note of a list in turn. -/
def addAll (N : Nat) (s : State) : List Note → State
  | [] => s
  | n :: ns => addAll N (bufferAdd N s n.f n.d n.portb n.portc n.portd) ns

/-! ## Playback (lines 87-111) -/

/-- Observable actions of `bufferPlay`: a consultation of `Button(&PORTA, 1, 1, 0)` with
its result, a call of `Sound_Play`, and writes to the port and TRIS registers. -/
inductive Event where
  | Button (r : Bool)
  | Sound_Play (f : Nat) (d : Nat)
  | PORTB (v : Nat)
  | PORTC (v : Nat)
  | PORTD (v : Nat)
  | TRISB (v : Nat)
  | TRISC (v : Nat)
  | TRISD (v : Nat)
  deriving DecidableEq

/-- The iteration of the `for` loop of `bufferPlay` (line 97) with the trigger always
asserted, collecting the note read at each index: `it` runs from `first` until it
equals `last`, stepping by `(iter + 1) % bufferLength`. The result is `none` when the
loop has not ended within `fuel` tests of the loop condition. -/
def bufferSeqLoop (N : Nat) (s : State) : Nat → Nat → Option (List Note)
  | 0, _ => none
  | fuel + 1, it =>
    if it = s.last then some []
    else
      match bufferSeqLoop N s fuel ((it + 1) % UWORD % N) with
      | none => none
      | some ns => some (noteAt s it :: ns)

/-- The buffer sequence: the notes from index `first` up to, excluding, `last`, in the
order `bufferPlay` iterates them. After its first step the index is below `N`, so a
loop that ends at all ends within `N + 1` steps. -/
def bufferSeq (N : Nat) (s : State) : Option (List Note) :=
  bufferSeqLoop N s (N + 2) s.first

/-- The `for` loop of `bufferPlay` (lines 97-108). `button k` is the value of
`Button(&PORTA, 1, 1, 0)` at the `k`-th iteration. Returns the final value of `iter`
and the trace of the loop, or `none` when the loop has not ended within `fuel` tests
of the loop condition. -/
def bufferPlayLoop (N : Nat) (s : State) (button : Nat → Bool) :
    Nat → Nat → Nat → Option (Nat × List Event)
  | 0, _, _ => none
  | fuel + 1, k, it =>
    if it = s.last then some (it, [])
    else if button k then
      match bufferPlayLoop N s button fuel (k + 1) ((it + 1) % UWORD % N) with
      | none => none
      | some (it', tr) =>
        some (it', Event.Button true :: Event.Sound_Play (s.freq it) (s.dur it)
          :: Event.PORTB (s.portbs it) :: Event.PORTC (s.portcs it)
          :: Event.PORTD (s.portds it) :: tr)
    else some (it, [Event.Button false])

/-- Source `bufferPlay` (lines 87-111). A chained assignment `X = Y = Z = v` writes
`Z`, then `Y`, then `X`. -/
def bufferPlay (N : Nat) (s : State) (button : Nat → Bool) : Option (State × List Event) :=
  if s.first = s.last then some (s, [])
  else
    let s1 := if s.freq s.first = 0 then { s with dur := write s.dur s.first 1 } else s
    match bufferPlayLoop N s1 button (N + 2) 0 s1.first with
    | none => none
    | some (it, tr) =>
      some ({ s1 with iter := it },
        [Event.TRISD 0, Event.TRISC 0, Event.TRISB 0] ++ tr ++
        [Event.PORTD 0, Event.PORTC 0, Event.PORTB 0,
         Event.TRISD 0x7F, Event.TRISC 0x7F, Event.TRISB 0x7F])

/-! ## Key resolution and the tick handler (lines 114-170) -/

/-- The `while` loop of `offset` (lines 116-119): `none` when the low bit has not
shown up within `fuel` tests. -/
def offsetLoop : Nat → Nat → Nat → Option Nat
  | 0, _, _ => none
  | fuel + 1, port, i =>
    if port % 2 = 0 then offsetLoop fuel (port / 2) (i + 1) else some i

/-- Source `offset` (lines 114-121). The argument is an `unsigned char`: after eight
shifts it is zero, so a loop that ends at all ends within nine tests. -/
def offset (port : Nat) : Option Nat :=
  offsetLoop 9 (port % 256) 0

/-- The lookup `frequencies[base - offset(port)]` (lines 156, 160, 164): the index is
computed in 16-bit `unsigned` arithmetic, and a read outside the table has no value. -/
def lookup (base port : Nat) : Option Nat :=
  match offset port with
  | none => none
  | some o => frequencies.get? ((base + UWORD - o % UWORD) % UWORD)

/-- The mapping of the sampled ports to a frequency (lines 155-168). -/
def mapFrequency (PORTB PORTC PORTD : Nat) : Option Nat :=
  if PORTB ≠ 0 then lookup 6 PORTB
  else if PORTC ≠ 0 then lookup 13 PORTC
  else if PORTD ≠ 0 then lookup 20 PORTD
  else some 0

/-- Source `Interrupt` (lines 134-170), with the Timer0 flag and the sampled ports as
arguments: each port holds one value during a run of the handler. The timer registers
are not part of the state. The result is `none` when the frequency lookup has no
value. -/
def Interrupt (N : Nat) (s : State) (TMR0IF : Bool) (PORTB PORTC PORTD : Nat) :
    Option State :=
  if TMR0IF then
    if s.maskB = PORTB ∧ s.maskC = PORTC ∧ s.maskD = PORTD then
      some { s with duration := (s.duration + 1) % UWORD }
    else
      let s1 := if s.PORTA_b5 then
          bufferAdd N s s.frequency (s.duration * 20 % UWORD) PORTB PORTC PORTD
        else s
      let s2 := { s1 with duration := 0, maskB := PORTB, maskC := PORTC, maskD := PORTD }
      match mapFrequency PORTB PORTC PORTD with
      | none => none
      | some fr => some { s2 with frequency := fr }
  else some s

/-- Runs the tick handler on a list of samples of `(PORTB, PORTC, PORTD)`, one tick
each. -/
def ticks (N : Nat) (s : State) : List (Nat × Nat × Nat) → Option State
  | [] => some s
  | p :: ps =>
    match Interrupt N s true p.1 p.2.1 p.2.2 with
    | none => none
    | some s' => ticks N s' ps

/-! ## Auxiliary notions: invariant, ring arithmetic, reachable states -/

/-- The buffer indices are array indices. -/
def Inv (N : Nat) (s : State) : Prop :=
  s.first < N ∧ s.last < N

/-- Number of steps from index `a` to index `b` going up round a ring of `N` slots. -/
def dist (N a b : Nat) : Nat :=
  if a ≤ b then b - a else b + N - a

/-- The index `i` steps after `a` in a ring of `N` slots. -/
def ringIdx (N a i : Nat) : Nat :=
  if a + i < N then a + i else a + i - N

/-- The last `k` elements of a list. -/
def lastN (k : Nat) (l : List Note) : List Note :=
  l.drop (l.length - k)

/-- The states the program can be in: after `bufferInit`, any sequence of
`keyboardInit`, `bufferAdd`, `bufferErase`, `bufferPlay`, timer interrupts and
switches of the recording bit. -/
inductive Reachable (N : Nat) : State → Prop
  | init (s0 : State) : Reachable N (bufferInit s0)
  | keyboard {s : State} : Reachable N s → Reachable N (keyboardInit s)
  | add {s : State} (f d b c e : Nat) : Reachable N s → Reachable N (bufferAdd N s f d b c e)
  | erase {s : State} : Reachable N s → Reachable N (bufferErase s)
  | play {s s' : State} (button : Nat → Bool) (tr : List Event) :
      Reachable N s → bufferPlay N s button = some (s', tr) → Reachable N s'
  | tick {s s' : State} (t : Bool) (B C D : Nat) :
      Reachable N s → Interrupt N s t B C D = some s' → Reachable N s'
  | switchOn {s : State} : Reachable N s → Reachable N (recordOn s)
  | switchOff {s : State} : Reachable N s → Reachable N (recordOff s)

/-! ## Concrete inputs -/

/-- Note A of the concrete runs: C4 for 20 ms. -/
def noteA : Note := { f := 262, d := 20, portb := 0x40, portc := 0, portd := 0 }

/-- Note B of the concrete runs: D4 for 40 ms. -/
def noteB : Note := { f := 294, d := 40, portb := 0x20, portc := 0, portd := 0 }

/-- Note C of the concrete runs: E4 for 60 ms. -/
def noteC : Note := { f := 330, d := 60, portb := 0x10, portc := 0, portd := 0 }

/-- Note D of the concrete runs: C5 for 20 ms. -/
def noteD : Note := { f := 523, d := 20, portb := 0, portc := 0x40, portd := 0 }

/-- Note E of the concrete runs: B6 for 100 ms. -/
def noteE : Note := { f := 1976, d := 100, portb := 0, portc := 0, portd := 1 }

/-- A full buffer: `first = 1`, `last = 0`, every slot zero. -/
def fullState : State :=
  { zeroState with first := 1, last := 0 }

/-! ## Reading a playback trace -/

/-- The trace of one loop iteration of `bufferPlay` that plays the note `n`
(lines 99-104). -/
def noteEvents (n : Note) : List Event :=
  [Event.Button true, Event.Sound_Play n.f n.d, Event.PORTB n.portb,
   Event.PORTC n.portc, Event.PORTD n.portd]

/-- The trace of the loop iterations that play the notes of a list in turn. -/
def eventsOf : List Note → List Event
  | [] => []
  | n :: ns => noteEvents n ++ eventsOf ns

/-- The `(frequency, duration)` pairs passed to `Sound_Play`, in order. -/
def soundCalls (tr : List Event) : List (Nat × Nat) :=
  tr.filterMap (fun e => match e with
    | Event.Sound_Play f d => some (f, d)
    | _ => none)

/-- The values written to `PORTB`, in order. -/
def writesB (tr : List Event) : List Nat :=
  tr.filterMap (fun e => match e with
    | Event.PORTB v => some v
    | _ => none)

/-- The values written to `PORTC`, in order. -/
def writesC (tr : List Event) : List Nat :=
  tr.filterMap (fun e => match e with
    | Event.PORTC v => some v
    | _ => none)

/-- The values written to `PORTD`, in order. -/
def writesD (tr : List Event) : List Nat :=
  tr.filterMap (fun e => match e with
    | Event.PORTD v => some v
    | _ => none)

/-- The number of loop iterations, out of at most `n` starting with iteration `k`, that
come before the first one whose trigger value is false. -/
def played (button : Nat → Bool) : Nat → Nat → Nat
  | _, 0 => 0
  | k, n + 1 => if button k then played button (k + 1) n + 1 else 0

/-- The "skip silent intro" rule of `bufferPlay` (lines 92-93) on a sequence of notes:
a first note of frequency 0 gets duration 1. -/
def skipIntro : List Note → List Note
  | [] => []
  | n :: ns => (if n.f = 0 then { n with d := 1 } else n) :: ns

/-- A trigger that is asserted at every iteration. -/
def held : Nat → Bool :=
  fun _ => true

/-- A trigger that is asserted at the first iteration only. -/
def releasedAfterFirst : Nat → Bool :=
  fun k => decide (k = 0)

/-- The buffer holding the notes {0,5}, {294,10}: a leading silence. -/
def silentIntroState : State :=
  addAll bufferLength (bufferInit zeroState)
    [{ f := 0, d := 5, portb := 0, portc := 0, portd := 0 },
     { f := 294, d := 10, portb := 0x20, portc := 0, portd := 0 }]

/-- The buffer holding the notes {262,20}, {0,5}, {294,10}. -/
def scenario5State : State :=
  addAll bufferLength (bufferInit zeroState)
    [{ f := 262, d := 20, portb := 0x40, portc := 0, portd := 0 },
     { f := 0, d := 5, portb := 0, portc := 0, portd := 0 },
     { f := 294, d := 10, portb := 0x20, portc := 0, portd := 0 }]

/-! ## Reference resolver and concrete tick inputs -/

/-- The index of the least-significant set bit of `n` (0 when `n = 0`). -/
def ctz (n : Nat) : Nat :=
  ((List.range n).find? (fun i => n.testBit i)).getD 0

/-- The reference resolver, following the specification: the first non-zero row in the
order B, C, D selects the table entry `base - ctz row` with base 6, 13, 20; all rows
zero give 0. -/
def resolveRef (B C D : Nat) : Nat :=
  if B ≠ 0 then frequencies.getD (6 - ctz B) 0
  else if C ≠ 0 then frequencies.getD (13 - ctz C) 0
  else if D ≠ 0 then frequencies.getD (20 - ctz D) 0
  else 0

/-- The state after `bufferInit` and `keyboardInit` on the all-zero memory image, with
recording switched on. -/
def recordingStart : State :=
  recordOn (keyboardInit (bufferInit zeroState))

/-- A recording state holding the note of 262 Hz for 3 ticks, the key still seen. -/
def heldState : State :=
  { recordingStart with frequency := 262, duration := 3, maskB := 0x40 }

/-! ## Sequences of buffer operations -/

/-- One call of a buffer operation: `bufferAdd` with its five arguments, or
`bufferErase`. -/
inductive Op where
  | add (f d portbb portcc portdd : Nat)
  | erase

/-- Runs a sequence of buffer operations, in order. -/
def runOps (N : Nat) (s : State) : List Op → State
  | [] => s
  | Op.add f d b c e :: ops => runOps N (bufferAdd N s f d b c e) ops
  | Op.erase :: ops => runOps N (bufferErase s) ops

/-- The number of `bufferAdd` calls made since the last `bufferErase` of a sequence of
operations, starting the count at `c` when no `bufferErase` comes. -/
def countAdds (c : Nat) : List Op → Nat
  | [] => c
  | Op.add _ _ _ _ _ :: ops => countAdds (c + 1) ops
  | Op.erase :: ops => countAdds 0 ops

/-- The number of `bufferAdd` calls made since the last `bufferErase`, or since
`bufferInit` when there was none. -/
def addsSinceErase (ops : List Op) : Nat :=
  countAdds 0 ops

/-- The full test of `bufferAdd` (line 62). -/
def fullTest (N : Nat) (s : State) : Prop :=
  (s.last + 1) % UWORD % N = s.first % N

/-- The empty test of `bufferPlay` (line 89). -/
def emptyTest (s : State) : Prop :=
  s.first = s.last

/-! ## Lemmas on the circular buffer -/

theorem step_eq {N x : Nat} (hx : x < N) (hN : N < 65536) :
    (x + 1) % UWORD % N = if x + 1 = N then 0 else x + 1 := by
  have h1 : (x + 1) % UWORD = x + 1 := Nat.mod_eq_of_lt (by unfold UWORD; omega)
  rw [h1]
  split
  · next h => rw [h]; exact Nat.mod_self N
  · next h => exact Nat.mod_eq_of_lt (by omega)

theorem step_lt {N x : Nat} (hN : 0 < N) : (x + 1) % UWORD % N < N :=
  Nat.mod_lt _ hN

theorem noteAt_bufferAdd (N : Nat) (s : State) (f d b c e j : Nat) :
    noteAt (bufferAdd N s f d b c e) j
      = if j = s.last then { f := f, d := d, portb := b, portc := c, portd := e }
        else noteAt s j := by
  unfold bufferAdd
  split <;> split <;> simp_all [noteAt, write]

theorem bufferSeqLoop_closed (N : Nat) (s : State) (hN : N < 65536) (hl : s.last < N) :
    ∀ (d fuel it : Nat), it < N → dist N it s.last = d → d < fuel →
      bufferSeqLoop N s fuel it
        = some ((List.range d).map (fun i => noteAt s (ringIdx N it i))) := by
  intro d
  induction d with
  | zero =>
    intro fuel it hit hd hf
    obtain ⟨fuel, rfl⟩ : ∃ k, fuel = k + 1 := ⟨fuel - 1, by omega⟩
    have : it = s.last := by unfold dist at hd; split at hd <;> omega
    simp [bufferSeqLoop, this]
  | succ d ih =>
    intro fuel it hit hd hf
    obtain ⟨fuel, rfl⟩ : ∃ k, fuel = k + 1 := ⟨fuel - 1, by omega⟩
    have hne : it ≠ s.last := by
      intro h; subst h; unfold dist at hd; simp at hd
    have hnext := step_eq hit hN
    have hlt : (it + 1) % UWORD % N < N := step_lt (by omega)
    have hd' : dist N ((it + 1) % UWORD % N) s.last = d := by
      rw [hnext]; unfold dist at hd ⊢
      split at hd <;> split <;> split <;> omega
    rw [bufferSeqLoop, if_neg hne, ih fuel _ hlt hd' (by omega)]
    simp only [List.range_succ_eq_map, List.map_cons, List.map_map]
    have h0 : ringIdx N it 0 = it := by unfold ringIdx; simp [hit]
    rw [h0]
    congr 2
    apply List.map_congr_left
    intro i hi
    have hi' : i < d := List.mem_range.mp hi
    have hdl : d + 1 ≤ N := by unfold dist at hd; split at hd <;> omega
    simp only [Function.comp]
    congr 1
    rw [hnext]; unfold ringIdx
    split <;> split <;> split <;> omega

theorem bufferSeq_closed {N : Nat} {s : State} (hN : N < 65536) (hI : Inv N s) :
    bufferSeq N s
      = some ((List.range (dist N s.first s.last)).map
          (fun i => noteAt s (ringIdx N s.first i))) := by
  unfold bufferSeq
  apply bufferSeqLoop_closed N s hN hI.2 _ _ _ hI.1 rfl
  have := hI.1; have := hI.2
  unfold dist; split <;> omega

theorem bufferAdd_last (N : Nat) (s : State) (f d b c e : Nat) :
    (bufferAdd N s f d b c e).last = (s.last + 1) % UWORD % N := by
  unfold bufferAdd; split <;> rfl

theorem bufferAdd_first (N : Nat) (s : State) (f d b c e : Nat) :
    (bufferAdd N s f d b c e).first
      = if (s.last + 1) % UWORD % N = s.first % N then (s.first + 1) % UWORD % N
        else s.first := by
  unfold bufferAdd; split <;> rfl

theorem bufferAdd_inv {N : Nat} {s : State} (hI : Inv N s) (f d b c e : Nat) :
    Inv N (bufferAdd N s f d b c e) := by
  have hN : 0 < N := by have := hI.1; omega
  refine ⟨?_, ?_⟩
  · rw [bufferAdd_first]; split
    · exact step_lt hN
    · exact hI.1
  · rw [bufferAdd_last]; exact step_lt hN

theorem full_iff {N : Nat} {s : State} (h2 : 2 ≤ N) (hN : N < 65536) (hI : Inv N s) :
    ((s.last + 1) % UWORD % N = s.first % N) ↔ dist N s.first s.last + 1 = N := by
  obtain ⟨hf, hl⟩ := hI
  rw [step_eq hl hN, Nat.mod_eq_of_lt hf]
  unfold dist
  split <;> split <;> omega

theorem bufferSeq_bufferAdd {N : Nat} {s : State} (h2 : 2 ≤ N) (hN : N < 65536)
    (hI : Inv N s) (f d b c e : Nat) :
    ∃ xs, bufferSeq N s = some xs ∧ xs.length = dist N s.first s.last ∧
      bufferSeq N (bufferAdd N s f d b c e)
        = some (if xs.length + 1 = N
            then xs.tail ++ [{ f := f, d := d, portb := b, portc := c, portd := e }]
            else xs ++ [{ f := f, d := d, portb := b, portc := c, portd := e }]) := by
  refine ⟨_, bufferSeq_closed hN hI, by simp, ?_⟩
  rw [bufferSeq_closed hN (bufferAdd_inv hI f d b c e)]
  have hfull := full_iff h2 hN hI
  obtain ⟨hf, hl⟩ := hI
  have hsl := step_eq hl hN
  have hsf := step_eq hf hN
  simp only [List.length_map, List.length_range]
  rw [bufferAdd_first, bufferAdd_last]
  by_cases hc : dist N s.first s.last + 1 = N
  · rw [if_pos (hfull.mpr hc), if_pos hc]
    obtain ⟨m, rfl⟩ : ∃ m, N = m + 2 := ⟨N - 2, by omega⟩
    have hd : dist (m + 2) s.first s.last = m + 1 := by omega
    have hd' : dist (m + 2) ((s.first + 1) % UWORD % (m + 2))
        ((s.last + 1) % UWORD % (m + 2)) = m + 1 := by
      rw [hsl, hsf]; unfold dist at hd ⊢
      split at hd <;> split <;> split <;> split <;> omega
    rw [hd, hd']
    congr 1
    conv_lhs => rw [List.range_succ]
    conv_rhs => rw [List.range_succ_eq_map]
    simp only [List.map_append, List.map_cons, List.tail_cons, List.map_map, List.map_nil]
    congr 1
    · apply List.map_congr_left
      intro i hi
      have hi' : i < m := List.mem_range.mp hi
      simp only [Function.comp, noteAt_bufferAdd]
      have hidx : ringIdx (m + 2) ((s.first + 1) % UWORD % (m + 2)) i
          = ringIdx (m + 2) s.first (i + 1) := by
        rw [hsf]; unfold ringIdx
        split <;> split <;> split <;> omega
      have hne : ringIdx (m + 2) s.first (i + 1) ≠ s.last := by
        unfold ringIdx; unfold dist at hd
        split <;> split at hd <;> omega
      rw [hidx, if_neg hne]
    · have hidx : ringIdx (m + 2) ((s.first + 1) % UWORD % (m + 2)) m = s.last := by
        rw [hsf]; unfold ringIdx; unfold dist at hd
        split <;> split <;> split at hd <;> omega
      simp [noteAt_bufferAdd, hidx]
  · rw [if_neg (fun h => hc (hfull.mp h)), if_neg hc]
    have hdl : dist N s.first s.last < N := by unfold dist; split <;> omega
    have hd' : dist N s.first ((s.last + 1) % UWORD % N) = dist N s.first s.last + 1 := by
      rw [hsl]; unfold dist at hc hdl ⊢
      split at hc <;> split <;> split <;> omega
    rw [hd', List.range_succ]
    simp only [List.map_append, List.map_cons, List.map_nil]
    congr 2
    · apply List.map_congr_left
      intro i hi
      have hi' : i < dist N s.first s.last := List.mem_range.mp hi
      have hne : ringIdx N s.first i ≠ s.last := by
        unfold ringIdx; unfold dist at hi'
        split <;> split at hi' <;> omega
      simp only [noteAt_bufferAdd, if_neg hne]
    · have hidx : ringIdx N s.first (dist N s.first s.last) = s.last := by
        unfold ringIdx dist
        split <;> split <;> omega
      simp [noteAt_bufferAdd, hidx]

theorem lastN_push (k : Nat) (xs : List Note) (n : Note) (ns : List Note)
    (hk : 1 ≤ k) (hx : xs.length ≤ k) :
    lastN k ((if xs.length = k then xs.tail ++ [n] else xs ++ [n]) ++ ns)
      = lastN k (xs ++ n :: ns) := by
  split
  · next h =>
    cases xs with
    | nil => simp at h; omega
    | cons x t =>
      simp only [List.length_cons] at h
      unfold lastN
      simp only [List.tail_cons, List.append_assoc, List.singleton_append, List.cons_append,
        List.length_cons, List.length_append, List.nil_append, List.length_nil]
      have e1 : t.length + (ns.length + 1) - k = ns.length := by omega
      have e2 : t.length + (ns.length + 1) + 1 - k = ns.length + 1 := by omega
      rw [e1, e2, List.drop_succ_cons]
  · simp

theorem lastN_of_length_le (k : Nat) (xs : List Note) (hx : xs.length ≤ k) :
    lastN k xs = xs := by
  unfold lastN
  rw [Nat.sub_eq_zero_of_le hx, List.drop_zero]

theorem length_lastN (k : Nat) (xs : List Note) (hx : k ≤ xs.length) :
    (lastN k xs).length = k := by
  unfold lastN
  rw [List.length_drop]; omega

theorem dist_lt {N a b : Nat} (ha : a < N) (hb : b < N) : dist N a b < N := by
  unfold dist; split <;> omega

theorem addAll_seq {N : Nat} (h2 : 2 ≤ N) (hN : N < 65536) :
    ∀ (notes : List Note) (s : State) (xs : List Note), Inv N s → bufferSeq N s = some xs →
      Inv N (addAll N s notes) ∧
      bufferSeq N (addAll N s notes) = some (lastN (N - 1) (xs ++ notes)) := by
  intro notes
  induction notes with
  | nil =>
    intro s xs hI hs
    refine ⟨hI, ?_⟩
    have hlen : xs.length ≤ N - 1 := by
      have h := bufferSeq_closed hN hI
      rw [hs] at h
      have h' := congrArg (Option.map List.length) h
      simp at h'
      have := dist_lt hI.1 hI.2
      omega
    simp only [addAll, List.append_nil]
    rw [lastN_of_length_le _ _ hlen, hs]
  | cons n ns ih =>
    intro s xs hI hs
    obtain ⟨ys, hys, hlen, hadd⟩ := bufferSeq_bufferAdd h2 hN hI n.f n.d n.portb n.portc n.portd
    rw [hs] at hys
    obtain rfl : xs = ys := Option.some.inj hys
    have hI' := bufferAdd_inv hI n.f n.d n.portb n.portc n.portd
    obtain ⟨hI2, hseq⟩ := ih _ _ hI' hadd
    refine ⟨hI2, ?_⟩
    simp only [addAll]
    rw [hseq]
    congr 1
    have hd := dist_lt hI.1 hI.2
    have hcond : (xs.length + 1 = N) = (xs.length = N - 1) := by
      apply propext; constructor <;> intro h <;> omega
    have := lastN_push (N - 1) xs n ns (by omega) (by omega)
    simp only [hcond]
    exact this

theorem bufferSeq_empty {N : Nat} {s : State} (he : s.first = s.last) :
    bufferSeq N s = some [] := by
  unfold bufferSeq
  simp [bufferSeqLoop, he]

theorem addAll_from_empty {N : Nat} (h2 : 2 ≤ N) (hN : N < 65536) (s : State)
    (hI : Inv N s) (he : s.first = s.last) (notes : List Note) :
    bufferSeq N (addAll N s notes) = some (lastN (N - 1) notes) := by
  have h := (addAll_seq h2 hN notes s [] hI (bufferSeq_empty he)).2
  simpa using h

theorem bufferInit_inv {N : Nat} (hN : 0 < N) (s : State) : Inv N (bufferInit s) :=
  ⟨hN, hN⟩

theorem bufferErase_inv {N : Nat} {s : State} (hI : Inv N s) : Inv N (bufferErase s) :=
  ⟨hI.1, hI.1⟩

theorem bufferPlay_first_last {N : Nat} {s s' : State} {button : Nat → Bool}
    {tr : List Event} (h : bufferPlay N s button = some (s', tr)) :
    s'.first = s.first ∧ s'.last = s.last := by
  unfold bufferPlay at h
  split at h
  · simp at h; obtain ⟨rfl, _⟩ := h; exact ⟨rfl, rfl⟩
  · simp only at h
    split at h
    · simp at h
    · simp at h
      obtain ⟨rfl, _⟩ := h
      constructor <;> (simp only; split <;> rfl)

theorem Interrupt_inv {N : Nat} {s s' : State} {t : Bool} {B C D : Nat}
    (hI : Inv N s) (h : Interrupt N s t B C D = some s') : Inv N s' := by
  unfold Interrupt at h
  split at h
  · split at h
    · simp at h; subst h; exact hI
    · simp only at h
      split at h
      · simp at h
      · simp at h; subst h
        by_cases hr : s.PORTA_b5 = true
        · simp only [hr, if_true]
          exact bufferAdd_inv hI _ _ _ _ _
        · simp only [hr]
          exact hI
  · simp at h; subst h; exact hI

theorem reachable_inv {N : Nat} (hN : 0 < N) {s : State} (h : Reachable N s) : Inv N s := by
  induction h with
  | init s0 => exact bufferInit_inv hN s0
  | keyboard _ ih => exact ih
  | add f d b c e _ ih => exact bufferAdd_inv ih f d b c e
  | erase _ ih => exact bufferErase_inv ih
  | play button tr _ hp ih =>
    obtain ⟨h1, h2⟩ := bufferPlay_first_last hp
    exact ⟨by rw [h1]; exact ih.1, by rw [h2]; exact ih.2⟩
  | tick t B C D _ ht ih => exact Interrupt_inv ih ht
  | switchOn _ ih => exact ih
  | switchOff _ ih => exact ih

/-! ## C1 -/

/-- C1 (as stated, refuted): on a buffer of capacity 4, adding A, B, C, D and then E
leaves the sequence [C, D, E], which is not the sequence [B, C, D, E] of the four most
recently added notes. -/
theorem C1_counterexample :
    bufferSeq 4 (addAll 4 (bufferInit zeroState) [noteA, noteB, noteC, noteD, noteE])
        = some [noteC, noteD, noteE] ∧
    bufferSeq 4 (addAll 4 (bufferInit zeroState) [noteA, noteB, noteC, noteD, noteE])
        ≠ some (lastN 4 [noteA, noteB, noteC, noteD, noteE]) := by
  constructor <;> decide

/-- C1 (amended): for every capacity `N` with `2 ≤ N` (and `N < 2 ^ 16`, `N` being a
value of the C type `unsigned`) and every sequence of more than `N` `bufferAdd` calls made after `bufferInit`, the
sequence of notes from index `first` up to `last` is exactly the `N - 1` most recently
added notes, in insertion order. -/
theorem C1_ring_keeps_last (N : Nat) (s0 : State) (notes : List Note)
    (h2 : 2 ≤ N) (hN : N < UWORD) (hlen : N < notes.length) :
    bufferSeq N (addAll N (bufferInit s0) notes) = some (lastN (N - 1) notes) ∧
    (lastN (N - 1) notes).length = N - 1 ∧
    ∃ older, notes = older ++ lastN (N - 1) notes :=
  ⟨addAll_from_empty h2 hN _ (bufferInit_inv (by omega) s0) rfl notes,
   length_lastN _ _ (by omega),
   ⟨notes.take (notes.length - (N - 1)), (List.take_append_drop _ _).symm⟩⟩

/-- C1 (amended), at capacity 4 with the notes A, B, C, D, E. -/
theorem C1_ring_keeps_last_witness :
    bufferSeq 4 (addAll 4 (bufferInit zeroState) [noteA, noteB, noteC, noteD, noteE])
        = some (lastN (4 - 1) [noteA, noteB, noteC, noteD, noteE]) ∧
    (lastN (4 - 1) [noteA, noteB, noteC, noteD, noteE]).length = 4 - 1 ∧
    ∃ older, [noteA, noteB, noteC, noteD, noteE]
        = older ++ lastN (4 - 1) [noteA, noteB, noteC, noteD, noteE] :=
  C1_ring_keeps_last 4 zeroState [noteA, noteB, noteC, noteD, noteE]
    (by decide) (by decide) (by decide)

/-! ## C2 -/

/-- C2: for every list of at most `bufferLength - 1` (127) notes, calling `bufferAdd`
on each in turn from the state after `bufferInit`, or after `bufferErase` in a
reachable state, leaves the buffer sequence equal to exactly that list, each note with
the five fields as passed, in insertion order. -/
theorem C2_add_fifo (s0 : State) (notes : List Note)
    (hlen : notes.length ≤ bufferLength - 1) :
    bufferSeq bufferLength (addAll bufferLength (bufferInit s0) notes) = some notes ∧
    (Reachable bufferLength s0 →
      bufferSeq bufferLength (addAll bufferLength (bufferErase s0) notes) = some notes) := by
  have h2 : 2 ≤ bufferLength := by decide
  have hN : bufferLength < 65536 := by decide
  constructor
  · rw [addAll_from_empty h2 hN _ (bufferInit_inv (by decide) s0) rfl notes,
      lastN_of_length_le _ _ hlen]
  · intro hr
    have hI := bufferErase_inv (reachable_inv (by decide) hr)
    rw [addAll_from_empty h2 hN _ hI rfl notes, lastN_of_length_le _ _ hlen]

/-- C2 at the notes {262,20} and {294,40} added to the empty capacity-128 buffer. -/
theorem C2_add_fifo_witness :
    [noteA, noteB].length ≤ bufferLength - 1 ∧
    bufferSeq bufferLength (addAll bufferLength (bufferInit zeroState) [noteA, noteB])
      = some [noteA, noteB] ∧
    bufferSeq bufferLength
        (addAll bufferLength (bufferErase (bufferInit zeroState)) [noteA, noteB])
      = some [noteA, noteB] :=
  ⟨by decide, (C2_add_fifo zeroState [noteA, noteB] (by decide)).1,
   (C2_add_fifo (bufferInit zeroState) [noteA, noteB] (by decide)).2
     (Reachable.init zeroState)⟩

/-! ## C3 -/

/-- C3: for every buffer state with `first, last < bufferLength` in which the full test
`(last + 1) % bufferLength == first % bufferLength` holds, the buffer sequence is some
`x :: xs` and `bufferAdd` (a total function) produces a state whose buffer sequence is
`xs` followed by the added note: exactly the oldest note is discarded and every other
note keeps its fields and its place in the order. -/
theorem C3_full_add_drops_oldest (s : State) (f d b c e : Nat)
    (hf : s.first < bufferLength) (hl : s.last < bufferLength)
    (hfull : (s.last + 1) % bufferLength = s.first % bufferLength) :
    ∃ x xs, bufferSeq bufferLength s = some (x :: xs) ∧
      bufferSeq bufferLength (bufferAdd bufferLength s f d b c e)
        = some (xs ++ [{ f := f, d := d, portb := b, portc := c, portd := e }]) := by
  have h2 : 2 ≤ bufferLength := by decide
  have hN : bufferLength < 65536 := by decide
  have hI : Inv bufferLength s := ⟨hf, hl⟩
  obtain ⟨ys, hys, hlen, hadd⟩ := bufferSeq_bufferAdd h2 hN hI f d b c e
  have hfull' : (s.last + 1) % UWORD % bufferLength = s.first % bufferLength := by
    rw [Nat.mod_eq_of_lt (show s.last + 1 < UWORD by
      unfold UWORD; unfold bufferLength at hl; omega)]
    exact hfull
  have hcnt := (full_iff h2 hN hI).mp hfull'
  rw [← hlen] at hcnt
  rw [if_pos hcnt] at hadd
  cases ys with
  | nil => simp [bufferLength] at hcnt
  | cons x xs => exact ⟨x, xs, hys, hadd⟩

/-- C3 at the full capacity-128 buffer with `first = 1`, `last = 0`, adding E. -/
theorem C3_full_add_drops_oldest_witness :
    fullState.first < bufferLength ∧ fullState.last < bufferLength ∧
    (fullState.last + 1) % bufferLength = fullState.first % bufferLength ∧
    ∃ x xs, bufferSeq bufferLength fullState = some (x :: xs) ∧
      bufferSeq bufferLength (bufferAdd bufferLength fullState 1976 100 0 0 1)
        = some (xs ++ [{ f := 1976, d := 100, portb := 0, portc := 0, portd := 1 }]) :=
  ⟨by decide, by decide, by decide,
   C3_full_add_drops_oldest fullState 1976 100 0 0 1 (by decide) (by decide) (by decide)⟩

/-! ## C4 -/

/-- C4: in every reachable state, `bufferErase` yields a state with `first == last`
whose buffer sequence is empty, and a following `bufferAdd` of a note yields a state
whose buffer sequence is exactly that one note. -/
theorem C4_erase_then_add (s : State) (f d b c e : Nat)
    (hr : Reachable bufferLength s) :
    (bufferErase s).first = (bufferErase s).last ∧
    bufferSeq bufferLength (bufferErase s) = some [] ∧
    bufferSeq bufferLength (bufferAdd bufferLength (bufferErase s) f d b c e)
      = some [{ f := f, d := d, portb := b, portc := c, portd := e }] := by
  have hI := bufferErase_inv (reachable_inv (by decide) hr)
  refine ⟨rfl, bufferSeq_empty rfl, ?_⟩
  have h := addAll_from_empty (by decide) (by decide) (bufferErase s) hI rfl
    [{ f := f, d := d, portb := b, portc := c, portd := e }]
  rw [lastN_of_length_le _ _ (by simp [bufferLength])] at h
  exact h

/-- C4 at the state reached by adding the notes A, B, C after `bufferInit`. -/
theorem C4_erase_then_add_witness :
    Reachable bufferLength
      (bufferAdd bufferLength (bufferAdd bufferLength (bufferAdd bufferLength
        (bufferInit zeroState) 262 20 64 0 0) 294 40 32 0 0) 330 60 16 0 0) ∧
    bufferSeq bufferLength (bufferAdd bufferLength (bufferErase
      (bufferAdd bufferLength (bufferAdd bufferLength (bufferAdd bufferLength
        (bufferInit zeroState) 262 20 64 0 0) 294 40 32 0 0) 330 60 16 0 0))
        1976 100 0 0 1)
      = some [{ f := 1976, d := 100, portb := 0, portc := 0, portd := 1 }] :=
  ⟨Reachable.add _ _ _ _ _ (Reachable.add _ _ _ _ _ (Reachable.add _ _ _ _ _
      (Reachable.init zeroState))),
   (C4_erase_then_add _ 1976 100 0 0 1
      (Reachable.add _ _ _ _ _ (Reachable.add _ _ _ _ _ (Reachable.add _ _ _ _ _
        (Reachable.init zeroState))))).2.2⟩

theorem iterate_step_lt {N : Nat} (hN : 0 < N) (a : Nat) (ha : a < N) (k : Nat) :
    (fun i => (i + 1) % UWORD % N)^[k] a < N := by
  cases k with
  | zero => exact ha
  | succ k =>
    rw [Function.iterate_succ_apply']
    exact step_lt hN

/-! ## C5 -/

/-- C5: `first < bufferLength` and `last < bufferLength` hold after `bufferInit` and are
preserved by `bufferAdd` and `bufferErase`; hence in every reachable state the index
`last` written by `bufferAdd` and every index `iter` visited by the loop of
`bufferPlay` are below `bufferLength`, and the occupied count
`(last - first) mod bufferLength`, which is the length of the buffer sequence, lies
between 0 and `bufferLength`. -/
theorem C5_indices_in_bounds :
    (∀ s0 : State, (bufferInit s0).first < bufferLength ∧
      (bufferInit s0).last < bufferLength) ∧
    (∀ (s : State) (f d b c e : Nat), s.first < bufferLength → s.last < bufferLength →
      (bufferAdd bufferLength s f d b c e).first < bufferLength ∧
      (bufferAdd bufferLength s f d b c e).last < bufferLength) ∧
    (∀ s : State, s.first < bufferLength → s.last < bufferLength →
      (bufferErase s).first < bufferLength ∧ (bufferErase s).last < bufferLength) ∧
    (∀ s : State, Reachable bufferLength s →
      s.first < bufferLength ∧ s.last < bufferLength ∧
      (∀ k : Nat, (fun i => (i + 1) % UWORD % bufferLength)^[k] s.first < bufferLength) ∧
      0 ≤ ((s.last : Int) - (s.first : Int)) % (bufferLength : Int) ∧
      ((s.last : Int) - (s.first : Int)) % (bufferLength : Int) ≤ (bufferLength : Int) ∧
      ∃ xs, bufferSeq bufferLength s = some xs ∧
        (xs.length : Int) = ((s.last : Int) - (s.first : Int)) % (bufferLength : Int)) := by
  refine ⟨fun s0 => bufferInit_inv (by decide) s0,
    fun s f d b c e hf hl => bufferAdd_inv ⟨hf, hl⟩ f d b c e,
    fun s hf hl => bufferErase_inv ⟨hf, hl⟩, ?_⟩
  intro s hr
  have hI := reachable_inv (show 0 < bufferLength by decide) hr
  obtain ⟨hf, hl⟩ := hI
  refine ⟨hf, hl, iterate_step_lt (by decide) _ hf, ?_, ?_, ?_⟩
  · unfold bufferLength; omega
  · unfold bufferLength; omega
  · refine ⟨_, bufferSeq_closed (by decide) ⟨hf, hl⟩, ?_⟩
    simp only [List.length_map, List.length_range]
    unfold bufferLength at hf hl ⊢
    unfold dist
    split <;> omega

/-! ## Lemmas on playback -/

theorem bufferPlayLoop_of_seq (N : Nat) (s : State) (button : Nat → Bool) :
    ∀ (fuel k it : Nat) (xs : List Note), bufferSeqLoop N s fuel it = some xs →
      bufferPlayLoop N s button fuel k it
        = some ((fun i => (i + 1) % UWORD % N)^[played button k xs.length] it,
            eventsOf (xs.take (played button k xs.length)) ++
              (if played button k xs.length < xs.length then [Event.Button false]
               else [])) := by
  intro fuel
  induction fuel with
  | zero => intro k it xs h; simp [bufferSeqLoop] at h
  | succ fuel ih =>
    intro k it xs h
    rw [bufferSeqLoop] at h
    rw [bufferPlayLoop]
    split at h
    · next hit =>
      obtain rfl : [] = xs := Option.some.inj h
      simp [hit, played, eventsOf]
    · next hit =>
      split at h
      · simp at h
      · next ns hns =>
        obtain rfl : noteAt s it :: ns = xs := Option.some.inj h
        rw [if_neg hit]
        by_cases hb : button k = true
        · rw [if_pos hb, ih (k + 1) _ ns hns]
          simp [played, hb, eventsOf, noteEvents, noteAt]
        · rw [if_neg hb]
          simp [played, hb, eventsOf]

theorem noteAt_skip (s : State) (i : Nat) :
    noteAt (if s.freq s.first = 0 then { s with dur := write s.dur s.first 1 } else s) i
      = if i = s.first ∧ s.freq s.first = 0 then { noteAt s i with d := 1 }
        else noteAt s i := by
  by_cases h0 : s.freq s.first = 0
  · by_cases hi : i = s.first
    · simp [h0, hi, noteAt, write]
    · simp [h0, hi, noteAt, write]
  · simp [h0]

theorem bufferSeq_skip {N : Nat} {s : State} (hN : N < 65536) (hI : Inv N s) :
    ∃ xs, bufferSeq N s = some xs ∧
      bufferSeq N (if s.freq s.first = 0 then { s with dur := write s.dur s.first 1 }
        else s) = some (skipIntro xs) := by
  refine ⟨_, bufferSeq_closed hN hI, ?_⟩
  have hfl : (if s.freq s.first = 0 then { s with dur := write s.dur s.first 1 } else s).first
      = s.first ∧
    (if s.freq s.first = 0 then { s with dur := write s.dur s.first 1 } else s).last
      = s.last := by
    split <;> exact ⟨rfl, rfl⟩
  have hI' : Inv N
      (if s.freq s.first = 0 then { s with dur := write s.dur s.first 1 } else s) := by
    unfold Inv; rw [hfl.1, hfl.2]; exact hI
  rw [bufferSeq_closed hN hI', hfl.1, hfl.2]
  congr 1
  have hd := dist_lt hI.1 hI.2
  cases hdist : dist N s.first s.last with
  | zero => simp [skipIntro]
  | succ m =>
    rw [hdist] at hd
    simp only [List.range_succ_eq_map, List.map_cons, List.map_map, skipIntro]
    have h0 : ringIdx N s.first 0 = s.first := by unfold ringIdx; simp [hI.1]
    congr 1
    · rw [h0, noteAt_skip]
      by_cases hz : s.freq s.first = 0
      · simp [hz, noteAt]
      · simp [hz, noteAt]
    · apply List.map_congr_left
      intro i hi
      have hi' : i < m := List.mem_range.mp hi
      have hne : ringIdx N s.first (i + 1) ≠ s.first := by
        have := hI.1
        unfold ringIdx; split <;> omega
      simp only [Function.comp, noteAt_skip]
      rw [if_neg (fun h => hne h.1)]

theorem length_skipIntro (xs : List Note) : (skipIntro xs).length = xs.length := by
  cases xs <;> simp [skipIntro]

theorem bufferPlay_trace {N : Nat} {s : State} (button : Nat → Bool) (hN : N < 65536)
    (hI : Inv N s) (hne : s.first ≠ s.last) :
    ∃ xs, bufferSeq N s = some xs ∧
      bufferPlay N s button
        = some ({ (if s.freq s.first = 0 then { s with dur := write s.dur s.first 1 }
                    else s) with
                  iter := (fun i => (i + 1) % UWORD % N)^[played button 0 xs.length]
                    s.first },
            [Event.TRISD 0, Event.TRISC 0, Event.TRISB 0] ++
            (eventsOf ((skipIntro xs).take (played button 0 xs.length)) ++
              (if played button 0 xs.length < xs.length then [Event.Button false]
               else [])) ++
            [Event.PORTD 0, Event.PORTC 0, Event.PORTB 0,
             Event.TRISD 0x7F, Event.TRISC 0x7F, Event.TRISB 0x7F]) := by
  obtain ⟨xs, hxs, hskip⟩ := bufferSeq_skip hN hI
  refine ⟨xs, hxs, ?_⟩
  have hfirst : (if s.freq s.first = 0 then { s with dur := write s.dur s.first 1 }
      else s).first = s.first := by
    split <;> rfl
  unfold bufferSeq at hskip
  rw [hfirst] at hskip
  have hloop := bufferPlayLoop_of_seq N _ button _ 0 _ _ hskip
  rw [length_skipIntro] at hloop
  unfold bufferPlay
  rw [if_neg hne]
  simp only [hfirst, hloop]

theorem soundCalls_eventsOf (l : List Note) :
    soundCalls (eventsOf l) = l.map (fun n => (n.f, n.d)) := by
  induction l with
  | nil => rfl
  | cons n ns ih =>
    unfold soundCalls at ih ⊢
    simp [eventsOf, noteEvents, List.filterMap_append, List.filterMap_cons, ih]

theorem writesB_eventsOf (l : List Note) :
    writesB (eventsOf l) = l.map (fun n => n.portb) := by
  induction l with
  | nil => rfl
  | cons n ns ih =>
    unfold writesB at ih ⊢
    simp [eventsOf, noteEvents, List.filterMap_append, List.filterMap_cons, ih]

theorem writesC_eventsOf (l : List Note) :
    writesC (eventsOf l) = l.map (fun n => n.portc) := by
  induction l with
  | nil => rfl
  | cons n ns ih =>
    unfold writesC at ih ⊢
    simp [eventsOf, noteEvents, List.filterMap_append, List.filterMap_cons, ih]

theorem writesD_eventsOf (l : List Note) :
    writesD (eventsOf l) = l.map (fun n => n.portd) := by
  induction l with
  | nil => rfl
  | cons n ns ih =>
    unfold writesD at ih ⊢
    simp [eventsOf, noteEvents, List.filterMap_append, List.filterMap_cons, ih]

theorem take_skipIntro_ports (xs : List Note) (j : Nat) :
    ((skipIntro xs).take j).map (fun n => n.portb) = (xs.take j).map (fun n => n.portb) ∧
    ((skipIntro xs).take j).map (fun n => n.portc) = (xs.take j).map (fun n => n.portc) ∧
    ((skipIntro xs).take j).map (fun n => n.portd) = (xs.take j).map (fun n => n.portd) := by
  cases xs with
  | nil => simp [skipIntro]
  | cons x t =>
    cases j with
    | zero => simp
    | succ j =>
      by_cases h : x.f = 0 <;> simp [skipIntro, h]

theorem trace_projections (l : List Note) (b : Bool) :
    soundCalls ([Event.TRISD 0, Event.TRISC 0, Event.TRISB 0] ++
        (eventsOf l ++ (if b then [Event.Button false] else [])) ++
        [Event.PORTD 0, Event.PORTC 0, Event.PORTB 0,
         Event.TRISD 0x7F, Event.TRISC 0x7F, Event.TRISB 0x7F])
      = l.map (fun n => (n.f, n.d)) ∧
    writesB ([Event.TRISD 0, Event.TRISC 0, Event.TRISB 0] ++
        (eventsOf l ++ (if b then [Event.Button false] else [])) ++
        [Event.PORTD 0, Event.PORTC 0, Event.PORTB 0,
         Event.TRISD 0x7F, Event.TRISC 0x7F, Event.TRISB 0x7F])
      = l.map (fun n => n.portb) ++ [0] ∧
    writesC ([Event.TRISD 0, Event.TRISC 0, Event.TRISB 0] ++
        (eventsOf l ++ (if b then [Event.Button false] else [])) ++
        [Event.PORTD 0, Event.PORTC 0, Event.PORTB 0,
         Event.TRISD 0x7F, Event.TRISC 0x7F, Event.TRISB 0x7F])
      = l.map (fun n => n.portc) ++ [0] ∧
    writesD ([Event.TRISD 0, Event.TRISC 0, Event.TRISB 0] ++
        (eventsOf l ++ (if b then [Event.Button false] else [])) ++
        [Event.PORTD 0, Event.PORTC 0, Event.PORTB 0,
         Event.TRISD 0x7F, Event.TRISC 0x7F, Event.TRISB 0x7F])
      = l.map (fun n => n.portd) ++ [0] := by
  have hs := soundCalls_eventsOf l
  have hb := writesB_eventsOf l
  have hc := writesC_eventsOf l
  have hd := writesD_eventsOf l
  unfold soundCalls at hs ⊢
  unfold writesB at hb ⊢
  unfold writesC at hc ⊢
  unfold writesD at hd ⊢
  cases b <;> simp [List.filterMap_append, List.filterMap_cons, hs, hb, hc, hd]

/-! ## C6 -/

/-- C6 (as stated, refuted): the reachable buffer holding {0,5}, {294,10} is played,
with the trigger asserted throughout, as the tones (0,1), (294,10): the first tone is
not the one of the first note of the buffer sequence. -/
theorem C6_counterexample :
    Reachable bufferLength silentIntroState ∧
    silentIntroState.first ≠ silentIntroState.last ∧
    bufferSeq bufferLength silentIntroState
      = some [{ f := 0, d := 5, portb := 0, portc := 0, portd := 0 },
              { f := 294, d := 10, portb := 0x20, portc := 0, portd := 0 }] ∧
    played held 0 2 = 2 ∧
    (bufferPlay bufferLength silentIntroState held).map (fun r => soundCalls r.2)
      = some [(0, 1), (294, 10)] ∧
    (bufferPlay bufferLength silentIntroState held).map (fun r => soundCalls r.2)
      ≠ some (([{ f := 0, d := 5, portb := 0, portc := 0, portd := 0 },
                { f := 294, d := 10, portb := 0x20, portc := 0, portd := 0 }].take 2).map
              (fun n : Note => (n.f, n.d))) := by
  refine ⟨Reachable.add _ _ _ _ _ (Reachable.add _ _ _ _ _ (Reachable.init zeroState)),
    by decide, by decide, by decide, by decide, by decide⟩

/-- C6 (amended): for every non-empty reachable buffer with sequence `xs` and every
trigger sequence, `bufferPlay` terminates; with `j` the number of iterations before the
first one whose trigger value is false (all of them if there is none), the tones passed
to `Sound_Play` are those of the first `j` notes of `xs`, in order, except that a first
note of frequency 0 is played with duration 1; the values written to ports B, C, D are
the LED patterns of the first `j` notes of `xs`, in order, followed by a final 0; and
the whole trace is the TRIS set-up, the `j` played notes, the failed trigger test if
any, the clearing of the ports and the TRIS reset. -/
theorem C6_play_until_release (s : State) (button : Nat → Bool)
    (hr : Reachable bufferLength s) (hne : s.first ≠ s.last) :
    ∃ xs s' tr, bufferSeq bufferLength s = some xs ∧ xs ≠ [] ∧
      bufferPlay bufferLength s button = some (s', tr) ∧
      soundCalls tr
        = ((skipIntro xs).take (played button 0 xs.length)).map (fun n => (n.f, n.d)) ∧
      writesB tr = (xs.take (played button 0 xs.length)).map (fun n => n.portb) ++ [0] ∧
      writesC tr = (xs.take (played button 0 xs.length)).map (fun n => n.portc) ++ [0] ∧
      writesD tr = (xs.take (played button 0 xs.length)).map (fun n => n.portd) ++ [0] ∧
      tr = [Event.TRISD 0, Event.TRISC 0, Event.TRISB 0] ++
            (eventsOf ((skipIntro xs).take (played button 0 xs.length)) ++
              (if played button 0 xs.length < xs.length then [Event.Button false]
               else [])) ++
            [Event.PORTD 0, Event.PORTC 0, Event.PORTB 0,
             Event.TRISD 0x7F, Event.TRISC 0x7F, Event.TRISB 0x7F] := by
  have hI := reachable_inv (show 0 < bufferLength by decide) hr
  obtain ⟨xs, hxs, hplay⟩ := bufferPlay_trace button (by decide) hI hne
  have hproj := trace_projections ((skipIntro xs).take (played button 0 xs.length))
    (decide (played button 0 xs.length < xs.length))
  simp only [decide_eq_true_eq] at hproj
  obtain ⟨hp1, hp2, hp3, hp4⟩ := hproj
  obtain ⟨hq1, hq2, hq3⟩ := take_skipIntro_ports xs (played button 0 xs.length)
  rw [hq1] at hp2
  rw [hq2] at hp3
  rw [hq3] at hp4
  refine ⟨xs, _, _, hxs, ?_, hplay, hp1, hp2, hp3, hp4, rfl⟩
  intro hnil
  subst hnil
  have h := bufferSeq_closed (show bufferLength < 65536 by decide) hI
  rw [hxs] at h
  have h' := congrArg (Option.map List.length) h
  simp at h'
  apply hne
  have := hI.1
  have := hI.2
  unfold dist at h'
  split at h' <;> omega

/-- C6 (amended) at the buffer {262,20}, {0,5}, {294,10} with the trigger released
after the first note. -/
theorem C6_play_until_release_witness :
    Reachable bufferLength scenario5State ∧
    scenario5State.first ≠ scenario5State.last ∧
    (bufferPlay bufferLength scenario5State releasedAfterFirst).map
        (fun r => (soundCalls r.2, writesB r.2, writesC r.2, writesD r.2))
      = some ([(262, 20)], [0x40, 0], [0, 0], [0, 0]) ∧
    ∃ xs s' tr, bufferSeq bufferLength scenario5State = some xs ∧ xs ≠ [] ∧
      bufferPlay bufferLength scenario5State releasedAfterFirst = some (s', tr) ∧
      soundCalls tr
        = ((skipIntro xs).take (played releasedAfterFirst 0 xs.length)).map
            (fun n => (n.f, n.d)) ∧
      writesB tr
        = (xs.take (played releasedAfterFirst 0 xs.length)).map (fun n => n.portb) ++ [0] ∧
      writesC tr
        = (xs.take (played releasedAfterFirst 0 xs.length)).map (fun n => n.portc) ++ [0] ∧
      writesD tr
        = (xs.take (played releasedAfterFirst 0 xs.length)).map (fun n => n.portd) ++ [0] ∧
      tr = [Event.TRISD 0, Event.TRISC 0, Event.TRISB 0] ++
            (eventsOf ((skipIntro xs).take (played releasedAfterFirst 0 xs.length)) ++
              (if played releasedAfterFirst 0 xs.length < xs.length
               then [Event.Button false] else [])) ++
            [Event.PORTD 0, Event.PORTC 0, Event.PORTB 0,
             Event.TRISD 0x7F, Event.TRISC 0x7F, Event.TRISB 0x7F] :=
  ⟨Reachable.add _ _ _ _ _ (Reachable.add _ _ _ _ _ (Reachable.add _ _ _ _ _
      (Reachable.init zeroState))),
   by decide, by decide,
   C6_play_until_release scenario5State releasedAfterFirst
     (Reachable.add _ _ _ _ _ (Reachable.add _ _ _ _ _ (Reachable.add _ _ _ _ _
       (Reachable.init zeroState))))
     (by decide)⟩

/-! ## Lemmas on the tick handler -/

theorem offset_eq_ctz (p : Nat) (h0 : p ≠ 0) (h : p ≤ 0x7F) :
    offset p = some (ctz p) ∧ ctz p ≤ 6 := by
  interval_cases p <;> first | exact absurd rfl h0 | decide

theorem lookup_eq (p : Nat) (h0 : p ≠ 0) (h : p ≤ 0x7F) :
    lookup 6 p = some (frequencies.getD (6 - ctz p) 0) ∧
    lookup 13 p = some (frequencies.getD (13 - ctz p) 0) ∧
    lookup 20 p = some (frequencies.getD (20 - ctz p) 0) := by
  obtain ⟨ho, hc⟩ := offset_eq_ctz p h0 h
  unfold lookup
  rw [ho]
  generalize ctz p = o at hc
  interval_cases o <;> decide

theorem mapFrequency_eq (B C D : Nat) (hB : B ≤ 0x7F) (hC : C ≤ 0x7F) (hD : D ≤ 0x7F) :
    mapFrequency B C D = some (resolveRef B C D) := by
  unfold mapFrequency resolveRef
  by_cases b0 : B = 0
  · by_cases c0 : C = 0
    · by_cases d0 : D = 0
      · simp [b0, c0, d0]
      · simp only [b0, c0, d0, ne_eq, not_true_eq_false, not_false_eq_true, if_true, if_false]
        exact (lookup_eq D d0 hD).2.2
    · simp only [b0, c0, ne_eq, not_true_eq_false, not_false_eq_true, if_true, if_false]
      exact (lookup_eq C c0 hC).2.1
  · simp only [b0, ne_eq, not_false_eq_true, if_true]
    exact (lookup_eq B b0 hB).1

theorem Interrupt_change {N : Nat} {s : State} {B C D v : Nat}
    (hch : ¬ (s.maskB = B ∧ s.maskC = C ∧ s.maskD = D))
    (hm : mapFrequency B C D = some v) :
    Interrupt N s true B C D
      = some { (if s.PORTA_b5 then
                  bufferAdd N s s.frequency (s.duration * 20 % UWORD) B C D
                else s) with
               duration := 0, maskB := B, maskC := C, maskD := D, frequency := v } := by
  unfold Interrupt
  simp only [if_true, if_neg hch, hm]

theorem Interrupt_change_eq {N : Nat} {s : State} {B C D : Nat}
    (hch : ¬ (s.maskB = B ∧ s.maskC = C ∧ s.maskD = D)) :
    Interrupt N s true B C D
      = (mapFrequency B C D).map (fun v =>
          { (if s.PORTA_b5 then
               bufferAdd N s s.frequency (s.duration * 20 % UWORD) B C D
             else s) with
            duration := 0, maskB := B, maskC := C, maskD := D, frequency := v }) := by
  unfold Interrupt
  simp only [if_true, if_neg hch]
  cases mapFrequency B C D <;> rfl

theorem Interrupt_same {N : Nat} {s : State} {B C D : Nat}
    (hsame : s.maskB = B ∧ s.maskC = C ∧ s.maskD = D) :
    Interrupt N s true B C D = some { s with duration := (s.duration + 1) % UWORD } := by
  unfold Interrupt
  simp only [if_true, if_pos hsame]

theorem bufferSeqLoop_congr {N : Nat} {s t : State} (hn : ∀ i, noteAt s i = noteAt t i)
    (hl : s.last = t.last) :
    ∀ fuel it, bufferSeqLoop N s fuel it = bufferSeqLoop N t fuel it := by
  intro fuel
  induction fuel with
  | zero => intro it; rfl
  | succ fuel ih =>
    intro it
    rw [bufferSeqLoop, bufferSeqLoop, ih, hl, hn]

theorem bufferSeq_congr {N : Nat} {s t : State} (hn : ∀ i, noteAt s i = noteAt t i)
    (hf : s.first = t.first) (hl : s.last = t.last) :
    bufferSeq N s = bufferSeq N t := by
  unfold bufferSeq
  rw [hf]
  exact bufferSeqLoop_congr hn hl _ _

/-! ## C7 -/

/-- C7 (as stated, refuted): from the initial recording state, where `maskB` is 0, a
tick that samples `PORTB = 0x40` stores the note with LED pattern 0x40 for port B, the
newly sampled value, and the buffer differs from the one `bufferAdd` yields with the
previous masks. -/
theorem C7_counterexample :
    recordingStart.PORTA_b5 = true ∧
    ¬ (recordingStart.maskB = 0x40 ∧ recordingStart.maskC = 0 ∧ recordingStart.maskD = 0) ∧
    recordingStart.maskB = 0 ∧
    (Interrupt bufferLength recordingStart true 0x40 0 0).map
        (fun s' => bufferSeq bufferLength s')
      = some (some [{ f := 0, d := 0, portb := 0x40, portc := 0, portd := 0 }]) ∧
    (Interrupt bufferLength recordingStart true 0x40 0 0).map
        (fun s' => bufferSeq bufferLength s')
      ≠ some (bufferSeq bufferLength
          (bufferAdd bufferLength recordingStart recordingStart.frequency
            (recordingStart.duration * 20 % UWORD)
            recordingStart.maskB recordingStart.maskC recordingStart.maskD)) := by
  refine ⟨by decide, by decide, by decide, by decide, by decide⟩

/-- C7 (amended): for every state, reachable or not, on a tick where the sampled ports
differ from the saved masks and recording is active, whenever the tick handler returns,
the note it has stored in slot `last` has the frequency and the scaled duration of
before the tick and, as LED patterns, the newly sampled `PORTB`, `PORTC`, `PORTD`,
which are also the new masks, and in a reachable state this note is the last one of
the buffer sequence; the handler returns for all sampled 7-bit rows. -/
theorem C7_led_patterns_are_sampled (s : State) (B C D : Nat)
    (hch : ¬ (s.maskB = B ∧ s.maskC = C ∧ s.maskD = D))
    (hrec : s.PORTA_b5 = true) :
    (∀ s', Interrupt bufferLength s true B C D = some s' →
      noteAt s' s.last
        = { f := s.frequency, d := s.duration * 20 % UWORD,
            portb := B, portc := C, portd := D } ∧
      s'.maskB = B ∧ s'.maskC = C ∧ s'.maskD = D ∧
      (Reachable bufferLength s →
        ∃ xs, bufferSeq bufferLength s'
          = some (xs ++ [{ f := s.frequency, d := s.duration * 20 % UWORD,
                           portb := B, portc := C, portd := D }]))) ∧
    (B ≤ 0x7F → C ≤ 0x7F → D ≤ 0x7F →
      ∃ s', Interrupt bufferLength s true B C D = some s') := by
  constructor
  · intro s' hs'
    cases hm : mapFrequency B C D with
    | none => rw [Interrupt_change_eq hch, hm] at hs'; simp at hs'
    | some v =>
      rw [Interrupt_change hch hm] at hs'
      simp only [hrec, if_true] at hs'
      obtain rfl := Option.some.inj hs'
      refine ⟨?_, rfl, rfl, rfl, ?_⟩
      · have h := noteAt_bufferAdd bufferLength s s.frequency (s.duration * 20 % UWORD)
          B C D s.last
        rw [if_pos rfl] at h
        exact h
      · intro hr
        have hI := reachable_inv (show 0 < bufferLength by decide) hr
        obtain ⟨xs, _, _, hadd⟩ := bufferSeq_bufferAdd (show 2 ≤ bufferLength by decide)
          (show bufferLength < 65536 by decide) hI s.frequency (s.duration * 20 % UWORD)
          B C D
        have hc : bufferSeq bufferLength
            { bufferAdd bufferLength s s.frequency (s.duration * 20 % UWORD) B C D with
              duration := 0, maskB := B, maskC := C, maskD := D, frequency := v }
            = bufferSeq bufferLength
                (bufferAdd bufferLength s s.frequency (s.duration * 20 % UWORD) B C D) :=
          bufferSeq_congr (fun _ => rfl) rfl rfl
        rw [hc, hadd]
        split
        · exact ⟨_, rfl⟩
        · exact ⟨_, rfl⟩
  · intro hB hC hD
    exact ⟨_, Interrupt_change hch (mapFrequency_eq B C D hB hC hD)⟩

/-- C7 (amended) at the initial recording state with `PORTB = 0x40` sampled: the stored
note has LED pattern 0x40 for port B. -/
theorem C7_led_patterns_are_sampled_witness :
    ¬ (recordingStart.maskB = 0x40 ∧ recordingStart.maskC = 0 ∧ recordingStart.maskD = 0) ∧
    recordingStart.PORTA_b5 = true ∧
    (∀ s', Interrupt bufferLength recordingStart true 0x40 0 0 = some s' →
      noteAt s' recordingStart.last
        = { f := recordingStart.frequency, d := recordingStart.duration * 20 % UWORD,
            portb := 0x40, portc := 0, portd := 0 } ∧
      s'.maskB = 0x40 ∧ s'.maskC = 0 ∧ s'.maskD = 0 ∧
      (Reachable bufferLength recordingStart →
        ∃ xs, bufferSeq bufferLength s'
          = some (xs ++ [{ f := recordingStart.frequency,
                           d := recordingStart.duration * 20 % UWORD,
                           portb := 0x40, portc := 0, portd := 0 }]))) ∧
    ∃ s', Interrupt bufferLength recordingStart true 0x40 0 0 = some s' :=
  ⟨by decide, by decide,
   (C7_led_patterns_are_sampled recordingStart 0x40 0 0 (by decide) (by decide)).1,
   (C7_led_patterns_are_sampled recordingStart 0x40 0 0 (by decide) (by decide)).2
     (by decide) (by decide) (by decide)⟩

/-! ## C8 -/

/-- C8: for every state, reachable or not, on a tick where the sampled ports differ
from the saved masks and recording is active, the result of the tick handler is,
whenever its frequency lookup has a value `v` (it has one for all sampled 7-bit rows),
the state after exactly one call of `bufferAdd`, with frequency the value of
`frequency` before the tick and duration 20 times the value of `duration` before the
tick modulo 2^16 (exactly 20 times when that fits), followed by the updates of
`duration`, the masks and `frequency`; the call writes these two values to slot `last`
and advances `last` by one slot. -/
theorem C8_tick_adds_previous_note (s : State) (B C D : Nat)
    (hch : ¬ (s.maskB = B ∧ s.maskC = C ∧ s.maskD = D))
    (hrec : s.PORTA_b5 = true) :
    Interrupt bufferLength s true B C D
      = (mapFrequency B C D).map (fun v =>
          { bufferAdd bufferLength s s.frequency (s.duration * 20 % UWORD) B C D with
            duration := 0, maskB := B, maskC := C, maskD := D, frequency := v }) ∧
    (B ≤ 0x7F → C ≤ 0x7F → D ≤ 0x7F → ∃ v, mapFrequency B C D = some v) ∧
    (20 * s.duration < UWORD → s.duration * 20 % UWORD = 20 * s.duration) ∧
    (bufferAdd bufferLength s s.frequency (s.duration * 20 % UWORD) B C D).freq s.last
      = s.frequency ∧
    (bufferAdd bufferLength s s.frequency (s.duration * 20 % UWORD) B C D).dur s.last
      = s.duration * 20 % UWORD ∧
    (bufferAdd bufferLength s s.frequency (s.duration * 20 % UWORD) B C D).last
      = (s.last + 1) % UWORD % bufferLength := by
  have hi := Interrupt_change_eq (N := bufferLength) (B := B) (C := C) (D := D) hch
  simp only [hrec, if_true] at hi
  have hn := noteAt_bufferAdd bufferLength s s.frequency (s.duration * 20 % UWORD) B C D
    s.last
  rw [if_pos rfl] at hn
  refine ⟨hi, fun hB hC hD => ⟨_, mapFrequency_eq B C D hB hC hD⟩, ?_, ?_, ?_,
    bufferAdd_last _ _ _ _ _ _ _⟩
  · intro h
    rw [Nat.mod_eq_of_lt (by omega)]
    omega
  · exact congrArg Note.f hn
  · exact congrArg Note.d hn

/-- C8 at a recording state holding the note 262 Hz for 3 ticks when the key is
released: the note added has frequency 262 and duration 60. -/
theorem C8_tick_adds_previous_note_witness :
    ¬ (heldState.maskB = 0 ∧ heldState.maskC = 0 ∧ heldState.maskD = 0) ∧
    heldState.PORTA_b5 = true ∧
    Interrupt bufferLength heldState true 0 0 0
      = (mapFrequency 0 0 0).map (fun v =>
          { bufferAdd bufferLength heldState heldState.frequency
              (heldState.duration * 20 % UWORD) 0 0 0 with
            duration := 0, maskB := 0, maskC := 0, maskD := 0, frequency := v }) ∧
    heldState.frequency = 262 ∧ heldState.duration * 20 % UWORD = 60 :=
  ⟨by decide, by decide,
   (C8_tick_adds_previous_note heldState 0 0 0 (by decide) (by decide)).1,
   by decide, by decide⟩

/-! ## Lemmas on runs of ticks -/

theorem bufferAdd_PORTA_b5 (N : Nat) (s : State) (f d b c e : Nat) :
    (bufferAdd N s f d b c e).PORTA_b5 = s.PORTA_b5 := by
  unfold bufferAdd; split <;> rfl

theorem bufferSeq_add_of_seq {N : Nat} {s : State} {xs : List Note} (h2 : 2 ≤ N)
    (hN : N < 65536) (hI : Inv N s) (hs : bufferSeq N s = some xs)
    (hlen : xs.length + 1 < N) (f d b c e : Nat) :
    bufferSeq N (bufferAdd N s f d b c e)
      = some (xs ++ [{ f := f, d := d, portb := b, portc := c, portd := e }]) := by
  obtain ⟨ys, hys, _, hadd⟩ := bufferSeq_bufferAdd h2 hN hI f d b c e
  rw [hs] at hys
  obtain rfl : xs = ys := Option.some.inj hys
  rw [hadd, if_neg (by omega)]

theorem ticks_append (N : Nat) (a b : List (Nat × Nat × Nat)) :
    ∀ s s', ticks N s a = some s' → ticks N s (a ++ b) = ticks N s' b := by
  induction a with
  | nil =>
    intro s s' h
    simp only [ticks] at h
    obtain rfl : s = s' := Option.some.inj h
    rfl
  | cons p ps ih =>
    intro s s' h
    simp only [List.cons_append, ticks] at h ⊢
    split at h
    · simp at h
    · exact ih _ _ h

theorem ticks_same (N B C D : Nat) :
    ∀ (j : Nat) (t : State), t.maskB = B → t.maskC = C → t.maskD = D →
      t.duration < UWORD →
      ticks N t (List.replicate j (B, C, D))
        = some { t with duration := (t.duration + j) % UWORD } := by
  intro j
  induction j with
  | zero =>
    intro t _ _ _ hd
    simp only [List.replicate, ticks, Nat.add_zero, Nat.mod_eq_of_lt hd]
  | succ j ih =>
    intro t hb hc hd hdur
    have h1 := ih { t with duration := (t.duration + 1) % UWORD } hb hc hd
      (Nat.mod_lt _ (show 0 < UWORD by decide))
    have e : ((t.duration + 1) % UWORD + j) % UWORD = (t.duration + (j + 1)) % UWORD := by
      unfold UWORD; omega
    simp only [e] at h1
    simp only [List.replicate, ticks]
    rw [Interrupt_same ⟨hb, hc, hd⟩]
    exact h1

theorem Interrupt_change_facts {N : Nat} {s : State} {B C D v : Nat}
    (hch : ¬ (s.maskB = B ∧ s.maskC = C ∧ s.maskD = D))
    (hm : mapFrequency B C D = some v) (hrec : s.PORTA_b5 = true) :
    ∃ s', Interrupt N s true B C D = some s' ∧ s'.duration = 0 ∧
      s'.maskB = B ∧ s'.maskC = C ∧ s'.maskD = D ∧ s'.frequency = v ∧
      s'.PORTA_b5 = true ∧
      s'.first = (bufferAdd N s s.frequency (s.duration * 20 % UWORD) B C D).first ∧
      s'.last = (bufferAdd N s s.frequency (s.duration * 20 % UWORD) B C D).last ∧
      ∀ i, noteAt s' i
        = noteAt (bufferAdd N s s.frequency (s.duration * 20 % UWORD) B C D) i := by
  have h := Interrupt_change (N := N) hch hm
  simp only [hrec, if_true] at h
  exact ⟨_, h, rfl, rfl, rfl, rfl, rfl, by simp only [bufferAdd_PORTA_b5, hrec], rfl, rfl,
    fun _ => rfl⟩

theorem ticks_same_facts (N B C D : Nat) (j : Nat) (t : State)
    (hb : t.maskB = B) (hc : t.maskC = C) (hd : t.maskD = D) (hdur : t.duration < UWORD) :
    ∃ t', ticks N t (List.replicate j (B, C, D)) = some t' ∧
      t'.duration = (t.duration + j) % UWORD ∧ t'.frequency = t.frequency ∧
      t'.maskB = t.maskB ∧ t'.maskC = t.maskC ∧ t'.maskD = t.maskD ∧
      t'.PORTA_b5 = t.PORTA_b5 ∧ t'.first = t.first ∧ t'.last = t.last ∧
      ∀ i, noteAt t' i = noteAt t i :=
  ⟨_, ticks_same N B C D j t hb hc hd hdur, rfl, rfl, rfl, rfl, rfl, rfl, rfl, rfl,
    fun _ => rfl⟩

/-! ## C9 -/

/-- C9 (as stated, refuted): from the initial recording state, sampling the 262 Hz key
on 3 consecutive ticks and all rows zero on the next tick emits, on the release tick,
the note of frequency 262 with duration 40, not 60. -/
theorem C9_counterexample :
    (ticks bufferLength recordingStart
        (List.replicate 3 (0x40, 0, 0) ++ [(0, 0, 0)])).map
        (fun s' => bufferSeq bufferLength s')
      = some (some [{ f := 0, d := 0, portb := 0x40, portc := 0, portd := 0 },
                    { f := 262, d := 40, portb := 0, portc := 0, portd := 0 }]) ∧
    (40 : Nat) ≠ 3 * 20 := by
  constructor <;> decide

/-- C9 (amended): starting from the state after `bufferInit` and `keyboardInit` with
recording active, if the tick handler samples `PORTB = 0x40`, `PORTC = PORTD = 0` on
`k ≥ 1` consecutive ticks and all rows zero on the next tick, then before the release
tick the current note has frequency 262 and `duration = (k - 1) mod 2^16`, the release
tick adds the note of frequency 262 and duration `(k - 1) * 20` modulo 2^16 (exactly
`(k - 1) * 20` when that fits), and the buffer sequence is then the note emitted on
the first tick (frequency 0, duration 0) followed by this note. -/
theorem C9_held_key_duration (s0 : State) (k : Nat) (hk : 1 ≤ k) :
    ∃ t s', ticks bufferLength (recordOn (keyboardInit (bufferInit s0)))
          (List.replicate k (0x40, 0, 0)) = some t ∧
      t.frequency = 262 ∧ t.duration = (k - 1) % UWORD ∧
      Interrupt bufferLength t true 0 0 0 = some s' ∧
      ticks bufferLength (recordOn (keyboardInit (bufferInit s0)))
          (List.replicate k (0x40, 0, 0) ++ [(0, 0, 0)]) = some s' ∧
      noteAt s' t.last
        = { f := 262, d := (k - 1) * 20 % UWORD, portb := 0, portc := 0, portd := 0 } ∧
      bufferSeq bufferLength s'
        = some [{ f := 0, d := 0, portb := 0x40, portc := 0, portd := 0 },
                { f := 262, d := (k - 1) * 20 % UWORD, portb := 0, portc := 0,
                  portd := 0 }] ∧
      ((k - 1) * 20 < UWORD → (k - 1) * 20 % UWORD = (k - 1) * 20) := by
  obtain ⟨j, rfl⟩ : ∃ j, k = j + 1 := ⟨k - 1, by omega⟩
  simp only [Nat.add_sub_cancel]
  have h2 : 2 ≤ bufferLength := by decide
  have hN : bufferLength < 65536 := by decide
  have hI0 : Inv bufferLength (recordOn (keyboardInit (bufferInit s0))) :=
    bufferInit_inv (by decide) s0
  -- the first tick: the key is seen and the pending silence is stored
  obtain ⟨t1, ht1, hd1, hb1, hc1, hD1, hf1, hr1, hfirst1, hlast1, hnote1⟩ :=
    Interrupt_change_facts (N := bufferLength) (s := recordOn (keyboardInit (bufferInit s0)))
      (B := 0x40) (C := 0) (D := 0) (v := 262)
      (by simp [recordOn, keyboardInit]) (by decide) rfl
  have hI1 : Inv bufferLength t1 := by
    have h := bufferAdd_inv hI0 (recordOn (keyboardInit (bufferInit s0))).frequency
      ((recordOn (keyboardInit (bufferInit s0))).duration * 20 % UWORD) 0x40 0 0
    exact ⟨by rw [hfirst1]; exact h.1, by rw [hlast1]; exact h.2⟩
  have hseq1 : bufferSeq bufferLength t1
      = some [{ f := 0, d := 0, portb := 0x40, portc := 0, portd := 0 }] := by
    exact (bufferSeq_congr hnote1 hfirst1 hlast1).trans
      (bufferSeq_add_of_seq h2 hN hI0 (bufferSeq_empty rfl) (by decide) 0 0 0x40 0 0)
  -- the ticks on which the key is held
  obtain ⟨t, ht, hdt, hft, hbt, _, _, hrt, hfirstt, hlastt, hnotet⟩ :=
    ticks_same_facts bufferLength 0x40 0 0 j t1 hb1 hc1 hD1 (by rw [hd1]; decide)
  rw [hd1, Nat.zero_add] at hdt
  rw [hf1] at hft
  rw [hb1] at hbt
  rw [hr1] at hrt
  have hk_ticks : ticks bufferLength (recordOn (keyboardInit (bufferInit s0)))
      (List.replicate (j + 1) (0x40, 0, 0)) = some t := by
    simp only [List.replicate, ticks]
    rw [ht1]
    exact ht
  have hIt : Inv bufferLength t :=
    ⟨by rw [hfirstt]; exact hI1.1, by rw [hlastt]; exact hI1.2⟩
  have hseqt : bufferSeq bufferLength t
      = some [{ f := 0, d := 0, portb := 0x40, portc := 0, portd := 0 }] :=
    (bufferSeq_congr hnotet hfirstt hlastt).trans hseq1
  -- the release tick
  obtain ⟨s', hs', _, _, _, _, _, _, hfirst2, hlast2, hnote2⟩ :=
    Interrupt_change_facts (N := bufferLength) (s := t)
      (B := 0) (C := 0) (D := 0) (v := 0)
      (by rw [hbt]; simp) (by decide) hrt
  have hdur : j % UWORD * 20 % UWORD = j * 20 % UWORD := by unfold UWORD; omega
  rw [hft, hdt, hdur] at hfirst2 hlast2
  rw [hft, hdt, hdur] at hnote2
  refine ⟨t, s', hk_ticks, hft, hdt, hs', ?_, ?_, ?_, ?_⟩
  · rw [ticks_append _ _ _ _ _ hk_ticks]
    simp only [ticks]
    rw [hs']
  · rw [hnote2, noteAt_bufferAdd, if_pos rfl]
  · exact (bufferSeq_congr hnote2 hfirst2 hlast2).trans
      (bufferSeq_add_of_seq h2 hN hIt hseqt (by decide) 262 (j * 20 % UWORD) 0 0 0)
  · intro h
    exact Nat.mod_eq_of_lt h

/-- C9 (amended) for `k = 3` on the all-zero memory image: the emitted duration is
`(3 - 1) * 20 = 40`. -/
theorem C9_held_key_duration_witness :
    1 ≤ 3 ∧
    ∃ t s', ticks bufferLength (recordOn (keyboardInit (bufferInit zeroState)))
          (List.replicate 3 (0x40, 0, 0)) = some t ∧
      t.frequency = 262 ∧ t.duration = (3 - 1) % UWORD ∧
      Interrupt bufferLength t true 0 0 0 = some s' ∧
      ticks bufferLength (recordOn (keyboardInit (bufferInit zeroState)))
          (List.replicate 3 (0x40, 0, 0) ++ [(0, 0, 0)]) = some s' ∧
      noteAt s' t.last
        = { f := 262, d := (3 - 1) * 20 % UWORD, portb := 0, portc := 0, portd := 0 } ∧
      bufferSeq bufferLength s'
        = some [{ f := 0, d := 0, portb := 0x40, portc := 0, portd := 0 },
                { f := 262, d := (3 - 1) * 20 % UWORD, portb := 0, portc := 0,
                  portd := 0 }] ∧
      ((3 - 1) * 20 < UWORD → (3 - 1) * 20 % UWORD = (3 - 1) * 20) :=
  ⟨by decide, C9_held_key_duration zeroState 3 (by decide)⟩

/-! ## Lemmas on the reference resolver -/

theorem ctz_spec (p : Nat) (h0 : p ≠ 0) (h : p ≤ 0x7F) :
    p.testBit (ctz p) = true ∧ ∀ i, i < ctz p → p.testBit i = false := by
  interval_cases p <;> first | exact absurd rfl h0 | decide

theorem lookup_lowbit (p : Nat) (h0 : p ≠ 0) (h : p ≤ 0x7F) :
    2 ^ ctz p ≠ 0 ∧ lookup 6 (2 ^ ctz p) = lookup 6 p ∧
    lookup 13 (2 ^ ctz p) = lookup 13 p ∧ lookup 20 (2 ^ ctz p) = lookup 20 p := by
  interval_cases p <;> first | exact absurd rfl h0 | decide

/-! ## C10 -/

/-- C10: for all row masks `B`, `C`, `D` in 0..0x7F, on a change tick the tick handler
returns and the frequency it assigns is the one of the reference resolver:
`frequencies[6 - ctz B]` if `B ≠ 0`, else `frequencies[13 - ctz C]` if `C ≠ 0`, else
`frequencies[20 - ctz D]` if `D ≠ 0`, else 0, with `ctz` the index of the
least-significant set bit. When `B ≠ 0` the result does not depend on `C` or `D`; only
the lowest set bit of the chosen row matters; port B bit 6 gives 262, port B bit 0
gives 494, port D bit 0 gives 1976, and `B = 1`, `C = 2`, `D = 0` gives 494. -/
theorem C10_resolver_matches_reference (s : State) (B C D : Nat)
    (hB : B ≤ 0x7F) (hC : C ≤ 0x7F) (hD : D ≤ 0x7F)
    (hch : ¬ (s.maskB = B ∧ s.maskC = C ∧ s.maskD = D)) :
    (∃ s', Interrupt bufferLength s true B C D = some s' ∧
      s'.frequency = resolveRef B C D) ∧
    mapFrequency B C D = some (resolveRef B C D) ∧
    (B ≠ 0 →
      (B.testBit (ctz B) = true ∧ ∀ i, i < ctz B → B.testBit i = false) ∧ ctz B ≤ 6 ∧
      (∀ C' D', mapFrequency B C' D' = mapFrequency B C D) ∧
      mapFrequency (2 ^ ctz B) C D = mapFrequency B C D) ∧
    (B = 0 → C ≠ 0 →
      (C.testBit (ctz C) = true ∧ ∀ i, i < ctz C → C.testBit i = false) ∧ ctz C ≤ 6 ∧
      (∀ D', mapFrequency B C D' = mapFrequency B C D) ∧
      mapFrequency B (2 ^ ctz C) D = mapFrequency B C D) ∧
    (B = 0 → C = 0 → D ≠ 0 →
      (D.testBit (ctz D) = true ∧ ∀ i, i < ctz D → D.testBit i = false) ∧ ctz D ≤ 6 ∧
      mapFrequency B C (2 ^ ctz D) = mapFrequency B C D) ∧
    mapFrequency 0x40 C D = some 262 ∧ mapFrequency 1 C D = some 494 ∧
    mapFrequency 0 0x40 D = some 523 ∧ mapFrequency 0 1 D = some 988 ∧
    mapFrequency 0 0 0x40 = some 1046 ∧ mapFrequency 0 0 1 = some 1976 ∧
    mapFrequency 1 2 0 = some 494 ∧ mapFrequency 0 2 0 = some 880 := by
  have hm := mapFrequency_eq B C D hB hC hD
  refine ⟨⟨_, Interrupt_change hch hm, rfl⟩, hm, ?_, ?_, ?_, ?_, ?_, ?_, ?_, ?_, ?_, ?_, ?_⟩
  · intro b0
    obtain ⟨hl0, hl6, _, _⟩ := lookup_lowbit B b0 hB
    refine ⟨ctz_spec B b0 hB, (offset_eq_ctz B b0 hB).2, ?_, ?_⟩
    · intro C' D'
      simp [mapFrequency, b0]
    · simp [mapFrequency, b0, hl6]
  · intro b0 c0
    subst b0
    obtain ⟨hl0, _, hl13, _⟩ := lookup_lowbit C c0 hC
    refine ⟨ctz_spec C c0 hC, (offset_eq_ctz C c0 hC).2, ?_, ?_⟩
    · intro D'
      simp [mapFrequency, c0]
    · simp [mapFrequency, c0, hl13]
  · intro b0 c0 d0
    subst b0 c0
    obtain ⟨hl0, _, _, hl20⟩ := lookup_lowbit D d0 hD
    refine ⟨ctz_spec D d0 hD, (offset_eq_ctz D d0 hD).2, ?_⟩
    simp [mapFrequency, d0, hl20]
  · have h : lookup 6 0x40 = some 262 := by decide
    simp [mapFrequency, h]
  · have h : lookup 6 1 = some 494 := by decide
    simp [mapFrequency, h]
  · have h : lookup 13 0x40 = some 523 := by decide
    simp [mapFrequency, h]
  · have h : lookup 13 1 = some 988 := by decide
    simp [mapFrequency, h]
  · decide
  · decide
  · decide
  · decide

/-- C10 at the all-zero state with `B = 0b0000001`, `C = 0b0000010`, `D = 0`: the
frequency assigned is 494, the one of row B, not 880. -/
theorem C10_resolver_matches_reference_witness :
    (1 ≤ 0x7F ∧ 2 ≤ 0x7F ∧ 0 ≤ 0x7F) ∧
    ¬ (zeroState.maskB = 1 ∧ zeroState.maskC = 2 ∧ zeroState.maskD = 0) ∧
    resolveRef 1 2 0 = 494 ∧
    (∃ s', Interrupt bufferLength zeroState true 1 2 0 = some s' ∧
      s'.frequency = resolveRef 1 2 0) ∧
    mapFrequency 1 2 0 = some (resolveRef 1 2 0) :=
  ⟨by decide, by decide, by decide,
   (C10_resolver_matches_reference zeroState 1 2 0 (by decide) (by decide) (by decide)
      (by decide)).1,
   (C10_resolver_matches_reference zeroState 1 2 0 (by decide) (by decide) (by decide)
      (by decide)).2.1⟩

/-! ## C11 -/

/-- C11: for every state, reachable or not, and whether or not recording is active, on
a tick where the sampled ports equal the saved masks the tick handler returns the state
with `duration` increased by one modulo 2^16 (by exactly one when that fits) and with
`frequency`, the masks, `first`, `last`, the recording bit and every slot of the five
buffer arrays unchanged. -/
theorem C11_same_tick_counts (s : State) (B C D : Nat)
    (hsame : s.maskB = B ∧ s.maskC = C ∧ s.maskD = D) :
    ∃ s', Interrupt bufferLength s true B C D = some s' ∧
      s'.duration = (s.duration + 1) % UWORD ∧
      (s.duration + 1 < UWORD → s'.duration = s.duration + 1) ∧
      s'.frequency = s.frequency ∧
      s'.maskB = s.maskB ∧ s'.maskC = s.maskC ∧ s'.maskD = s.maskD ∧
      s'.first = s.first ∧ s'.last = s.last ∧ s'.PORTA_b5 = s.PORTA_b5 ∧
      s'.freq = s.freq ∧ s'.dur = s.dur ∧
      s'.portbs = s.portbs ∧ s'.portcs = s.portcs ∧ s'.portds = s.portds :=
  ⟨_, Interrupt_same hsame, rfl, fun h => Nat.mod_eq_of_lt h, rfl, rfl, rfl, rfl, rfl, rfl,
    rfl, rfl, rfl, rfl, rfl, rfl⟩

/-- C11 at the recording state that holds the 262 Hz note for 3 ticks, the key still
pressed: `duration` becomes 4. -/
theorem C11_same_tick_counts_witness :
    (heldState.maskB = 0x40 ∧ heldState.maskC = 0 ∧ heldState.maskD = 0) ∧
    (Interrupt bufferLength heldState true 0x40 0 0).map (fun s' => s'.duration) = some 4 ∧
    ∃ s', Interrupt bufferLength heldState true 0x40 0 0 = some s' ∧
      s'.duration = (heldState.duration + 1) % UWORD ∧
      (heldState.duration + 1 < UWORD → s'.duration = heldState.duration + 1) ∧
      s'.frequency = heldState.frequency ∧
      s'.maskB = heldState.maskB ∧ s'.maskC = heldState.maskC ∧
      s'.maskD = heldState.maskD ∧
      s'.first = heldState.first ∧ s'.last = heldState.last ∧
      s'.PORTA_b5 = heldState.PORTA_b5 ∧
      s'.freq = heldState.freq ∧ s'.dur = heldState.dur ∧
      s'.portbs = heldState.portbs ∧ s'.portcs = heldState.portcs ∧
      s'.portds = heldState.portds :=
  ⟨by decide, by decide, C11_same_tick_counts heldState 0x40 0 0 (by decide)⟩

/-! ## Lemmas on ticks without recording -/

theorem Interrupt_total (N : Nat) (s : State) (t : Bool) {B C D : Nat}
    (hB : B ≤ 0x7F) (hC : C ≤ 0x7F) (hD : D ≤ 0x7F) :
    ∃ s', Interrupt N s t B C D = some s' := by
  cases t with
  | false => exact ⟨s, by simp [Interrupt]⟩
  | true =>
    by_cases hsame : s.maskB = B ∧ s.maskC = C ∧ s.maskD = D
    · exact ⟨_, Interrupt_same hsame⟩
    · exact ⟨_, Interrupt_change hsame (mapFrequency_eq B C D hB hC hD)⟩

theorem Interrupt_inactive {N : Nat} {s s' : State} {t : Bool} {B C D : Nat}
    (hrec : s.PORTA_b5 = false) (h : Interrupt N s t B C D = some s') :
    s'.first = s.first ∧ s'.last = s.last ∧ s'.freq = s.freq ∧ s'.dur = s.dur ∧
    s'.portbs = s.portbs ∧ s'.portcs = s.portcs ∧ s'.portds = s.portds ∧
    s'.PORTA_b5 = false := by
  unfold Interrupt at h
  split at h
  · split at h
    · obtain rfl := Option.some.inj h
      exact ⟨rfl, rfl, rfl, rfl, rfl, rfl, rfl, hrec⟩
    · simp only [hrec] at h
      split at h
      · simp at h
      · obtain rfl := Option.some.inj h
        exact ⟨rfl, rfl, rfl, rfl, rfl, rfl, rfl, hrec⟩
  · obtain rfl := Option.some.inj h
    exact ⟨rfl, rfl, rfl, rfl, rfl, rfl, rfl, hrec⟩

theorem ticks_inactive (N : Nat) :
    ∀ (ps : List (Nat × Nat × Nat)) (s s' : State), s.PORTA_b5 = false →
      ticks N s ps = some s' →
      s'.first = s.first ∧ s'.last = s.last ∧ s'.freq = s.freq ∧ s'.dur = s.dur ∧
      s'.portbs = s.portbs ∧ s'.portcs = s.portcs ∧ s'.portds = s.portds ∧
      s'.PORTA_b5 = false := by
  intro ps
  induction ps with
  | nil =>
    intro s s' hrec h
    simp only [ticks] at h
    obtain rfl := Option.some.inj h
    exact ⟨rfl, rfl, rfl, rfl, rfl, rfl, rfl, hrec⟩
  | cons p ps ih =>
    intro s s' hrec h
    simp only [ticks] at h
    split at h
    · simp at h
    · next t ht =>
      obtain ⟨a1, a2, a3, a4, a5, a6, a7, a8⟩ := Interrupt_inactive hrec ht
      obtain ⟨b1, b2, b3, b4, b5, b6, b7, b8⟩ := ih t s' a8 h
      exact ⟨b1.trans a1, b2.trans a2, b3.trans a3, b4.trans a4, b5.trans a5,
        b6.trans a6, b7.trans a7, b8⟩

theorem ticks_total (N : Nat) :
    ∀ (ps : List (Nat × Nat × Nat)) (s : State),
      (∀ p ∈ ps, p.1 ≤ 0x7F ∧ p.2.1 ≤ 0x7F ∧ p.2.2 ≤ 0x7F) →
      ∃ s', ticks N s ps = some s' := by
  intro ps
  induction ps with
  | nil => intro s _; exact ⟨s, rfl⟩
  | cons p ps ih =>
    intro s hp
    obtain ⟨h1, h2, h3⟩ := hp p (List.mem_cons_self _ _)
    obtain ⟨t, ht⟩ := Interrupt_total N s true h1 h2 h3
    obtain ⟨s', hs'⟩ := ih t (fun q hq => hp q (List.mem_cons_of_mem _ hq))
    exact ⟨s', by simp only [ticks, ht, hs']⟩

/-! ## C12 -/

/-- C12: for every state in which recording is inactive, whatever the sampled port
values the tick handler, when it returns, leaves `first`, `last` and the five buffer
arrays unchanged, and recording inactive; hence every sequence of ticks leaves them and
the buffer sequence unchanged. The handler returns for all sampled 7-bit rows. -/
theorem C12_no_recording_no_store (s : State) (hrec : s.PORTA_b5 = false) :
    (∀ (t : Bool) (B C D : Nat) (s' : State),
      Interrupt bufferLength s t B C D = some s' →
      s'.first = s.first ∧ s'.last = s.last ∧ s'.freq = s.freq ∧ s'.dur = s.dur ∧
      s'.portbs = s.portbs ∧ s'.portcs = s.portcs ∧ s'.portds = s.portds ∧
      s'.PORTA_b5 = false) ∧
    (∀ (ps : List (Nat × Nat × Nat)) (s' : State), ticks bufferLength s ps = some s' →
      s'.first = s.first ∧ s'.last = s.last ∧ s'.freq = s.freq ∧ s'.dur = s.dur ∧
      s'.portbs = s.portbs ∧ s'.portcs = s.portcs ∧ s'.portds = s.portds ∧
      bufferSeq bufferLength s' = bufferSeq bufferLength s) ∧
    (∀ ps : List (Nat × Nat × Nat),
      (∀ p ∈ ps, p.1 ≤ 0x7F ∧ p.2.1 ≤ 0x7F ∧ p.2.2 ≤ 0x7F) →
      ∃ s', ticks bufferLength s ps = some s') := by
  refine ⟨fun t B C D s' h => Interrupt_inactive hrec h, ?_,
    fun ps hp => ticks_total bufferLength ps s hp⟩
  intro ps s' h
  obtain ⟨a1, a2, a3, a4, a5, a6, a7, _⟩ := ticks_inactive bufferLength ps s s' hrec h
  refine ⟨a1, a2, a3, a4, a5, a6, a7, bufferSeq_congr ?_ a1 a2⟩
  intro i
  simp only [noteAt, a3, a4, a5, a6, a7]

/-- C12 at the buffer {262,20}, {0,5}, {294,10} with recording off, over a press and a
release of the 262 Hz key. -/
theorem C12_no_recording_no_store_witness :
    scenario5State.PORTA_b5 = false ∧
    (ticks bufferLength scenario5State [(0x40, 0, 0), (0x40, 0, 0), (0, 0, 0)]).map
        (fun s' => bufferSeq bufferLength s')
      = some (bufferSeq bufferLength scenario5State) ∧
    ∃ s', ticks bufferLength scenario5State [(0x40, 0, 0), (0x40, 0, 0), (0, 0, 0)]
      = some s' :=
  ⟨by decide, by decide,
   (C12_no_recording_no_store scenario5State (by decide)).2.2 _ (by decide)⟩

/-! ## Lemmas on repeated playback -/

theorem played_all (button : Nat → Bool) (hb : ∀ k, button k = true) :
    ∀ (n k : Nat), played button k n = n := by
  intro n
  induction n with
  | zero => intro k; rfl
  | succ n ih => intro k; simp [played, hb k, ih]

theorem skipIntro_idem (xs : List Note) : skipIntro (skipIntro xs) = skipIntro xs := by
  cases xs with
  | nil => rfl
  | cons x t => by_cases h : x.f = 0 <;> simp [skipIntro, h]

theorem bufferPlay_empty (N : Nat) (s : State) (button : Nat → Bool)
    (he : s.first = s.last) : bufferPlay N s button = some (s, []) := by
  unfold bufferPlay
  rw [if_pos he]

theorem bufferSeq_cons_of_ne {N : Nat} {s : State} (hN : N < 65536) (hI : Inv N s)
    (hne : s.first ≠ s.last) :
    ∃ rest, bufferSeq N s = some (noteAt s s.first :: rest) := by
  have h := bufferSeq_closed hN hI
  have hd : dist N s.first s.last ≠ 0 := by
    have := hI.1
    have := hI.2
    unfold dist; split <;> omega
  obtain ⟨m, hm⟩ : ∃ m, dist N s.first s.last = m + 1 :=
    ⟨dist N s.first s.last - 1, by omega⟩
  rw [hm, List.range_succ_eq_map] at h
  have h0 : ringIdx N s.first 0 = s.first := by unfold ringIdx; simp [hI.1]
  simp only [List.map_cons, h0] at h
  exact ⟨_, h⟩

theorem bufferPlay_all {N : Nat} {s : State} (button : Nat → Bool) (hN : N < 65536)
    (hI : Inv N s) (hne : s.first ≠ s.last) (hb : ∀ k, button k = true) :
    ∃ xs s', bufferSeq N s = some xs ∧
      bufferSeq N s' = some (skipIntro xs) ∧ s'.first = s.first ∧ s'.last = s.last ∧
      bufferPlay N s button
        = some (s',
            [Event.TRISD 0, Event.TRISC 0, Event.TRISB 0] ++
            (eventsOf (skipIntro xs) ++ []) ++
            [Event.PORTD 0, Event.PORTC 0, Event.PORTB 0,
             Event.TRISD 0x7F, Event.TRISC 0x7F, Event.TRISB 0x7F]) := by
  obtain ⟨xs, hxs, hplay⟩ := bufferPlay_trace button hN hI hne
  obtain ⟨ys, hys, hskip⟩ := bufferSeq_skip hN hI
  rw [hxs] at hys
  obtain rfl := Option.some.inj hys
  have hfl : (if s.freq s.first = 0 then { s with dur := write s.dur s.first 1 } else s).first
      = s.first ∧
    (if s.freq s.first = 0 then { s with dur := write s.dur s.first 1 } else s).last
      = s.last := by
    split <;> exact ⟨rfl, rfl⟩
  rw [played_all button hb, if_neg (Nat.lt_irrefl _)] at hplay
  have htake : (skipIntro xs).take xs.length = skipIntro xs := by
    rw [← length_skipIntro xs, List.take_length]
  rw [htake] at hplay
  refine ⟨xs, _, hxs, ?_, ?_, ?_, hplay⟩
  · refine Eq.trans (bufferSeq_congr ?_ ?_ ?_) hskip
    · intro _; rfl
    · rfl
    · rfl
  · exact hfl.1
  · exact hfl.2

/-! ## C13 -/

/-- C13 (as stated, refuted): on the reachable buffer holding {0,5}, {294,10},
`bufferPlay` with the trigger asserted changes the stored duration of the first note
from 5 to 1. -/
theorem C13_counterexample :
    Reachable bufferLength silentIntroState ∧
    silentIntroState.dur silentIntroState.first = 5 ∧
    (bufferPlay bufferLength silentIntroState held).map
        (fun r => r.1.dur silentIntroState.first) = some 1 ∧
    (bufferPlay bufferLength silentIntroState held).map
        (fun r => r.1.dur silentIntroState.first)
      ≠ some (silentIntroState.dur silentIntroState.first) := by
  refine ⟨Reachable.add _ _ _ _ _ (Reachable.add _ _ _ _ _ (Reachable.init zeroState)),
    by decide, by decide, by decide⟩

/-- C13 (amended): for every reachable buffer state and every trigger sequence,
`bufferPlay` returns and leaves `first`, `last`, the arrays `freq`, `portbs`, `portcs`,
`portds` and every slot of `dur` other than `first` unchanged; `dur[first]` is
unchanged too unless the buffer is non-empty and `freq[first]` is 0, in which case it
is set to 1. The buffer sequence after the call is the one before with the
skip-silent-intro rule applied. -/
theorem C13_play_keeps_notes (s : State) (button : Nat → Bool)
    (hr : Reachable bufferLength s) :
    ∃ s' tr, bufferPlay bufferLength s button = some (s', tr) ∧
      s'.first = s.first ∧ s'.last = s.last ∧ s'.freq = s.freq ∧
      s'.portbs = s.portbs ∧ s'.portcs = s.portcs ∧ s'.portds = s.portds ∧
      (∀ i, i ≠ s.first → s'.dur i = s.dur i) ∧
      s'.dur s.first
        = (if s.first ≠ s.last ∧ s.freq s.first = 0 then 1 else s.dur s.first) ∧
      ∃ xs, bufferSeq bufferLength s = some xs ∧
        bufferSeq bufferLength s' = some (skipIntro xs) := by
  have hI := reachable_inv (show 0 < bufferLength by decide) hr
  have hN : bufferLength < 65536 := by decide
  by_cases he : s.first = s.last
  · refine ⟨s, [], bufferPlay_empty _ s button he, rfl, rfl, rfl, rfl, rfl, rfl,
      fun _ _ => rfl, ?_, [], bufferSeq_empty he, ?_⟩
    · rw [if_neg (fun h => h.1 he)]
    · exact bufferSeq_empty he
  · obtain ⟨xs, hxs, hplay⟩ := bufferPlay_trace button hN hI he
    obtain ⟨ys, hys, hskip⟩ := bufferSeq_skip hN hI
    rw [hxs] at hys
    obtain rfl := Option.some.inj hys
    refine ⟨_, _, hplay, ?_, ?_, ?_, ?_, ?_, ?_, ?_, ?_, xs, hxs, ?_⟩
    · simp only; split <;> rfl
    · simp only; split <;> rfl
    · simp only; split <;> rfl
    · simp only; split <;> rfl
    · simp only; split <;> rfl
    · simp only; split <;> rfl
    · intro i hi
      by_cases h0 : s.freq s.first = 0
      · simp [h0, write, hi]
      · simp [h0]
    · by_cases h0 : s.freq s.first = 0
      · simp [h0, write, he]
      · simp [h0]
    · refine Eq.trans (bufferSeq_congr ?_ ?_ ?_) hskip
      · intro _; rfl
      · rfl
      · rfl

/-- C13 (amended) at the buffer {0,5}, {294,10} with the trigger asserted. -/
theorem C13_play_keeps_notes_witness :
    Reachable bufferLength silentIntroState ∧
    ∃ s' tr, bufferPlay bufferLength silentIntroState held = some (s', tr) ∧
      s'.first = silentIntroState.first ∧ s'.last = silentIntroState.last ∧
      s'.freq = silentIntroState.freq ∧
      s'.portbs = silentIntroState.portbs ∧ s'.portcs = silentIntroState.portcs ∧
      s'.portds = silentIntroState.portds ∧
      (∀ i, i ≠ silentIntroState.first → s'.dur i = silentIntroState.dur i) ∧
      s'.dur silentIntroState.first
        = (if silentIntroState.first ≠ silentIntroState.last ∧
              silentIntroState.freq silentIntroState.first = 0 then 1
           else silentIntroState.dur silentIntroState.first) ∧
      ∃ xs, bufferSeq bufferLength silentIntroState = some xs ∧
        bufferSeq bufferLength s' = some (skipIntro xs) :=
  ⟨Reachable.add _ _ _ _ _ (Reachable.add _ _ _ _ _ (Reachable.init zeroState)),
   C13_play_keeps_notes silentIntroState held
     (Reachable.add _ _ _ _ _ (Reachable.add _ _ _ _ _ (Reachable.init zeroState)))⟩

/-! ## C14 -/

/-- C14: for every reachable buffer state, two consecutive calls of `bufferPlay` with
the playback trigger asserted throughout both return and produce the identical trace;
in particular they pass the identical sequence of `(frequency, duration)` pairs to
`Sound_Play` and write the identical sequences of LED patterns to ports B, C, D. -/
theorem C14_replay_identical (s : State) (button1 button2 : Nat → Bool)
    (hr : Reachable bufferLength s)
    (hb1 : ∀ k, button1 k = true) (hb2 : ∀ k, button2 k = true) :
    ∃ s1 tr1 s2 tr2, bufferPlay bufferLength s button1 = some (s1, tr1) ∧
      bufferPlay bufferLength s1 button2 = some (s2, tr2) ∧
      tr1 = tr2 ∧ soundCalls tr1 = soundCalls tr2 ∧
      writesB tr1 = writesB tr2 ∧ writesC tr1 = writesC tr2 ∧
      writesD tr1 = writesD tr2 := by
  have hI := reachable_inv (show 0 < bufferLength by decide) hr
  have hN : bufferLength < 65536 := by decide
  by_cases he : s.first = s.last
  · exact ⟨s, [], s, [], bufferPlay_empty _ s button1 he, bufferPlay_empty _ s button2 he,
      rfl, rfl, rfl, rfl, rfl⟩
  · obtain ⟨xs, s1, hxs, hseq1, hf1, hl1, hplay1⟩ := bufferPlay_all button1 hN hI he hb1
    have hI1 : Inv bufferLength s1 := ⟨by rw [hf1]; exact hI.1, by rw [hl1]; exact hI.2⟩
    have he1 : s1.first ≠ s1.last := by rw [hf1, hl1]; exact he
    obtain ⟨ys, s2, hys, _, _, _, hplay2⟩ := bufferPlay_all button2 hN hI1 he1 hb2
    rw [hseq1] at hys
    obtain rfl := Option.some.inj hys
    rw [skipIntro_idem] at hplay2
    exact ⟨s1, _, s2, _, hplay1, hplay2, rfl, rfl, rfl, rfl, rfl⟩

/-- C14 at the buffer {0,5}, {294,10}: both calls pass (0,1), (294,10) to
`Sound_Play`. -/
theorem C14_replay_identical_witness :
    Reachable bufferLength silentIntroState ∧
    (∀ k, held k = true) ∧
    (bufferPlay bufferLength silentIntroState held).map (fun r => soundCalls r.2)
      = some [(0, 1), (294, 10)] ∧
    ∃ s1 tr1 s2 tr2, bufferPlay bufferLength silentIntroState held = some (s1, tr1) ∧
      bufferPlay bufferLength s1 held = some (s2, tr2) ∧
      tr1 = tr2 ∧ soundCalls tr1 = soundCalls tr2 ∧
      writesB tr1 = writesB tr2 ∧ writesC tr1 = writesC tr2 ∧
      writesD tr1 = writesD tr2 :=
  ⟨Reachable.add _ _ _ _ _ (Reachable.add _ _ _ _ _ (Reachable.init zeroState)),
   fun _ => rfl, by decide,
   C14_replay_identical silentIntroState held held
     (Reachable.add _ _ _ _ _ (Reachable.add _ _ _ _ _ (Reachable.init zeroState)))
     (fun _ => rfl) (fun _ => rfl)⟩

/-! ## C15 -/

/-- C15: for every non-empty reachable buffer, with oldest note `x` (the one in slot
`first`) followed by the notes `rest`, `bufferPlay` with the trigger asserted returns;
when `x` has frequency 0 it passes to `Sound_Play` first `(0, 1)`, whatever the
recorded duration of `x`, and then every later note, of frequency 0 or not, with its
recorded duration; when `x` has a non-zero frequency it passes every note with its
recorded duration. -/
theorem C15_silent_intro_skipped (s : State) (button : Nat → Bool)
    (hr : Reachable bufferLength s) (hne : s.first ≠ s.last)
    (hb : ∀ k, button k = true) :
    ∃ x rest s' tr, bufferSeq bufferLength s = some (x :: rest) ∧
      x = noteAt s s.first ∧
      bufferPlay bufferLength s button = some (s', tr) ∧
      (x.f = 0 → soundCalls tr = (0, 1) :: rest.map (fun n => (n.f, n.d))) ∧
      (x.f ≠ 0 → soundCalls tr = (x.f, x.d) :: rest.map (fun n => (n.f, n.d))) := by
  have hI := reachable_inv (show 0 < bufferLength by decide) hr
  have hN : bufferLength < 65536 := by decide
  obtain ⟨rest, hcons⟩ := bufferSeq_cons_of_ne hN hI hne
  obtain ⟨xs, s', hxs, _, _, _, hplay⟩ := bufferPlay_all button hN hI hne hb
  rw [hcons] at hxs
  obtain rfl := Option.some.inj hxs
  have hproj := (trace_projections (skipIntro (noteAt s s.first :: rest)) false).1
  simp only [Bool.false_eq_true, if_false] at hproj
  refine ⟨noteAt s s.first, rest, s', _, hcons, rfl, hplay, ?_, ?_⟩
  · intro h0
    rw [hproj]
    simp [skipIntro, h0]
  · intro h0
    rw [hproj]
    simp [skipIntro, h0]

/-- C15 at the buffer {0,5}, {294,10} with the trigger asserted: the tones passed are
(0,1), (294,10). -/
theorem C15_silent_intro_skipped_witness :
    Reachable bufferLength silentIntroState ∧
    silentIntroState.first ≠ silentIntroState.last ∧
    (∀ k, held k = true) ∧
    (noteAt silentIntroState silentIntroState.first).f = 0 ∧
    (noteAt silentIntroState silentIntroState.first).d = 5 ∧
    ∃ x rest s' tr, bufferSeq bufferLength silentIntroState = some (x :: rest) ∧
      x = noteAt silentIntroState silentIntroState.first ∧
      bufferPlay bufferLength silentIntroState held = some (s', tr) ∧
      (x.f = 0 → soundCalls tr = (0, 1) :: rest.map (fun n => (n.f, n.d))) ∧
      (x.f ≠ 0 → soundCalls tr = (x.f, x.d) :: rest.map (fun n => (n.f, n.d))) :=
  ⟨Reachable.add _ _ _ _ _ (Reachable.add _ _ _ _ _ (Reachable.init zeroState)),
   by decide, fun _ => rfl, by decide, by decide,
   C15_silent_intro_skipped silentIntroState held
     (Reachable.add _ _ _ _ _ (Reachable.add _ _ _ _ _ (Reachable.init zeroState)))
     (by decide) (fun _ => rfl)⟩

/-! ## C16 -/

/-- C16: for every state with `first == last` and every trigger sequence, `bufferPlay`
returns the state unchanged (so `first`, `last`, `iter` and the five arrays are
unchanged) with the empty trace: no `Sound_Play` call, no write to a port or TRIS
register and no consultation of the trigger; the result is the same for every trigger
sequence. -/
theorem C16_play_empty_noop (s : State) (button : Nat → Bool) (he : s.first = s.last) :
    bufferPlay bufferLength s button = some (s, []) ∧
    ∀ button2 : Nat → Bool,
      bufferPlay bufferLength s button2 = bufferPlay bufferLength s button :=
  ⟨bufferPlay_empty _ s button he,
   fun button2 => (bufferPlay_empty _ s button2 he).trans
     (bufferPlay_empty _ s button he).symm⟩

/-- C16 at the state after `bufferInit` on the all-zero memory image. -/
theorem C16_play_empty_noop_witness :
    (bufferInit zeroState).first = (bufferInit zeroState).last ∧
    bufferPlay bufferLength (bufferInit zeroState) held = some (bufferInit zeroState, []) :=
  ⟨rfl, (C16_play_empty_noop (bufferInit zeroState) held rfl).1⟩

/-! ## C17 -/

theorem frequencies_entry (i : Nat) (hi : i ≤ 20) :
    frequencies.getD i 0 ∈ frequencies ∧ frequencies.getD i 0 ≠ 0 := by
  interval_cases i <;> decide

theorem resolveRef_pressed (B C D : Nat) (hp : ¬ (B = 0 ∧ C = 0 ∧ D = 0)) :
    resolveRef B C D ∈ frequencies ∧ resolveRef B C D ≠ 0 := by
  unfold resolveRef
  by_cases b0 : B = 0
  · by_cases c0 : C = 0
    · have d0 : D ≠ 0 := fun h => hp ⟨b0, c0, h⟩
      simp only [b0, c0, d0, ne_eq, not_true_eq_false, not_false_eq_true, if_true, if_false]
      exact frequencies_entry _ (by omega)
    · simp only [b0, c0, ne_eq, not_true_eq_false, not_false_eq_true, if_true, if_false]
      exact frequencies_entry _ (by omega)
  · simp only [b0, ne_eq, not_false_eq_true, if_true]
    exact frequencies_entry _ (by omega)

/-- C17: for all row masks `B`, `C`, `D` in 0..0x7F the frequency lookup of the tick
handler has a value, which is the frequency the handler assigns on a change tick; this
value is 0 if and only if `B`, `C` and `D` are all zero, and for any mask with a key
pressed it is one of the 21 entries of the table, all of which are non-zero. -/
theorem C17_zero_iff_no_key (s : State) (B C D : Nat)
    (hB : B ≤ 0x7F) (hC : C ≤ 0x7F) (hD : D ≤ 0x7F) :
    ∃ v, mapFrequency B C D = some v ∧
      (¬ (s.maskB = B ∧ s.maskC = C ∧ s.maskD = D) →
        ∃ s', Interrupt bufferLength s true B C D = some s' ∧ s'.frequency = v) ∧
      (v = 0 ↔ B = 0 ∧ C = 0 ∧ D = 0) ∧
      (¬ (B = 0 ∧ C = 0 ∧ D = 0) → v ∈ frequencies ∧ v ≠ 0) ∧
      frequencies.length = 21 ∧ ∀ w ∈ frequencies, w ≠ 0 := by
  have hm := mapFrequency_eq B C D hB hC hD
  refine ⟨_, hm, fun hch => ⟨_, Interrupt_change hch hm, rfl⟩, ?_,
    resolveRef_pressed B C D, by decide, by decide⟩
  constructor
  · intro h0
    by_contra hp
    exact (resolveRef_pressed B C D hp).2 h0
  · rintro ⟨rfl, rfl, rfl⟩
    rfl

/-- C17 at the all-zero state: no key gives 0, the key `C = 0b0000010` gives 880. -/
theorem C17_zero_iff_no_key_witness :
    (2 ≤ 0x7F ∧ 0 ≤ 0x7F) ∧
    mapFrequency 0 0 0 = some 0 ∧ mapFrequency 0 2 0 = some 880 ∧
    ∃ v, mapFrequency 0 2 0 = some v ∧
      (¬ (zeroState.maskB = 0 ∧ zeroState.maskC = 2 ∧ zeroState.maskD = 0) →
        ∃ s', Interrupt bufferLength zeroState true 0 2 0 = some s' ∧ s'.frequency = v) ∧
      (v = 0 ↔ 0 = 0 ∧ 2 = 0 ∧ 0 = 0) ∧
      (¬ (0 = 0 ∧ 2 = 0 ∧ 0 = 0) → v ∈ frequencies ∧ v ≠ 0) ∧
      frequencies.length = 21 ∧ ∀ w ∈ frequencies, w ≠ 0 :=
  ⟨by decide, by decide, by decide,
   C17_zero_iff_no_key zeroState 0 2 0 (by decide) (by decide) (by decide)⟩

/-! ## C18 -/

/-- C18: for every state and all sampled port values that differ from the saved masks
in at least one row, whenever the tick handler returns, `duration` is 0, `maskB`,
`maskC`, `maskD` equal the sampled `PORTB`, `PORTC`, `PORTD`, `frequency` is the value
of the frequency mapping on the sampled values, and the very next tick with the same
sampled values takes the same-state branch: it only sets `duration` to 1. The handler
returns for all sampled 7-bit rows, with `frequency` the value of the reference
resolver. -/
theorem C18_change_tick_resets (s : State) (B C D : Nat)
    (hch : ¬ (s.maskB = B ∧ s.maskC = C ∧ s.maskD = D)) :
    (∀ s', Interrupt bufferLength s true B C D = some s' →
      s'.duration = 0 ∧ s'.maskB = B ∧ s'.maskC = C ∧ s'.maskD = D ∧
      mapFrequency B C D = some s'.frequency ∧
      Interrupt bufferLength s' true B C D = some { s' with duration := 1 }) ∧
    (B ≤ 0x7F → C ≤ 0x7F → D ≤ 0x7F →
      ∃ s', Interrupt bufferLength s true B C D = some s' ∧
        s'.frequency = resolveRef B C D) := by
  constructor
  · intro s' hs'
    cases hm : mapFrequency B C D with
    | none => rw [Interrupt_change_eq hch, hm] at hs'; simp at hs'
    | some v =>
      rw [Interrupt_change hch hm] at hs'
      obtain rfl := Option.some.inj hs'
      refine ⟨rfl, rfl, rfl, rfl, rfl, ?_⟩
      rw [Interrupt_same ⟨rfl, rfl, rfl⟩]
      rfl
  · intro hB hC hD
    exact ⟨_, Interrupt_change hch (mapFrequency_eq B C D hB hC hD), rfl⟩

/-- C18 at the initial recording state with the 262 Hz key sampled. -/
theorem C18_change_tick_resets_witness :
    ¬ (recordingStart.maskB = 0x40 ∧ recordingStart.maskC = 0 ∧ recordingStart.maskD = 0) ∧
    (Interrupt bufferLength recordingStart true 0x40 0 0).map
        (fun s' => (s'.duration, s'.maskB, s'.maskC, s'.maskD, s'.frequency))
      = some (0, 0x40, 0, 0, 262) ∧
    ∃ s', Interrupt bufferLength recordingStart true 0x40 0 0 = some s' ∧
      s'.frequency = resolveRef 0x40 0 0 :=
  ⟨by decide, by decide,
   (C18_change_tick_resets recordingStart 0x40 0 0 (by decide)).2
     (by decide) (by decide) (by decide)⟩

/-! ## Lemmas on sequences of buffer operations -/

theorem dist_bufferAdd {N : Nat} {s : State} (h2 : 2 ≤ N) (hN : N < 65536)
    (hI : Inv N s) (f d b c e : Nat) :
    dist N (bufferAdd N s f d b c e).first (bufferAdd N s f d b c e).last
      = if dist N s.first s.last + 1 = N then dist N s.first s.last
        else dist N s.first s.last + 1 := by
  obtain ⟨xs, _, hlen, hadd⟩ := bufferSeq_bufferAdd h2 hN hI f d b c e
  have h := bufferSeq_closed hN (bufferAdd_inv hI f d b c e)
  rw [hadd] at h
  have h' := congrArg (Option.map List.length) h
  simp only [Option.map_some', List.length_map, List.length_range, Option.some.injEq] at h'
  rw [← h', ← hlen]
  split
  · next hfull =>
    rw [List.length_append, List.length_tail, List.length_singleton]
    omega
  · rw [List.length_append, List.length_singleton]

theorem runOps_count {N : Nat} (h2 : 2 ≤ N) (hN : N < 65536) :
    ∀ (ops : List Op) (s : State) (c : Nat), Inv N s →
      dist N s.first s.last = min c (N - 1) →
      Inv N (runOps N s ops) ∧
      dist N (runOps N s ops).first (runOps N s ops).last
        = min (countAdds c ops) (N - 1) := by
  intro ops
  induction ops with
  | nil => intro s c hI hd; exact ⟨hI, hd⟩
  | cons op ops ih =>
    intro s c hI hd
    cases op with
    | add f d b p e =>
      simp only [runOps, countAdds]
      apply ih _ _ (bufferAdd_inv hI f d b p e)
      rw [dist_bufferAdd h2 hN hI]
      split <;> omega
    | erase =>
      simp only [runOps, countAdds]
      apply ih _ _ (bufferErase_inv hI)
      simp [bufferErase, dist]

theorem runOps_classify (s0 : State) (ops : List Op) :
    (emptyTest (runOps bufferLength (bufferInit s0) ops) ↔ addsSinceErase ops = 0) ∧
    (fullTest bufferLength (runOps bufferLength (bufferInit s0) ops)
      ↔ 127 ≤ addsSinceErase ops) := by
  have h2 : 2 ≤ bufferLength := by decide
  have hN : bufferLength < 65536 := by decide
  obtain ⟨hI, hd⟩ := runOps_count h2 hN ops (bufferInit s0) 0
    (bufferInit_inv (by decide) s0) (by simp [bufferInit, dist])
  have hfull := full_iff h2 hN hI
  unfold emptyTest fullTest addsSinceErase
  rw [hfull, hd]
  obtain ⟨hf, hl⟩ := hI
  unfold bufferLength at hd hf hl ⊢
  constructor
  · unfold dist at hd
    split at hd <;> constructor <;> intro h <;> omega
  · constructor <;> intro h <;> omega

/-! ## C19 -/

/-- C19 (as stated, refuted): there is no memory image and no sequence of `bufferAdd`
and `bufferErase` calls after `bufferInit` (capacity 128) after which the buffer tests
as empty although a `bufferAdd` has been made since the last `bufferErase` or
`bufferInit`, or the full test holds although none has been made. -/
theorem C19_counterexample :
    ¬ ∃ (s0 : State) (ops : List Op),
      (emptyTest (runOps bufferLength (bufferInit s0) ops) ∧ 0 < addsSinceErase ops) ∨
      (fullTest bufferLength (runOps bufferLength (bufferInit s0) ops) ∧
        addsSinceErase ops = 0) := by
  rintro ⟨s0, ops, h⟩
  obtain ⟨he, hf⟩ := runOps_classify s0 ops
  rcases h with ⟨h1, h2⟩ | ⟨h1, h2⟩
  · have := he.mp h1
    omega
  · have := hf.mp h1
    omega

/-- C19 (amended): after every sequence of `bufferAdd` and `bufferErase` calls starting
from the state after `bufferInit` (capacity 128), the index comparisons classify the
buffer correctly: the buffer tests as empty (`first == last`) if and only if no
`bufferAdd` has been made since the last `bufferErase` or `bufferInit`, and the full
test `(last + 1) % bufferLength == first % bufferLength` holds if and only if at least
127 `bufferAdd` calls have been made since then. -/
theorem C19_tests_classify (s0 : State) (ops : List Op) :
    ((runOps bufferLength (bufferInit s0) ops).first
        = (runOps bufferLength (bufferInit s0) ops).last
      ↔ addsSinceErase ops = 0) ∧
    (((runOps bufferLength (bufferInit s0) ops).last + 1) % UWORD % bufferLength
        = (runOps bufferLength (bufferInit s0) ops).first % bufferLength
      ↔ 127 ≤ addsSinceErase ops) :=
  runOps_classify s0 ops

/-! ## C20 -/

/-- C20: for every non-zero mask `p` in 1..0x7F the loop of `offset` terminates and
returns the index `o` of the least-significant set bit of `p`, which is at most 6;
hence the table indices `6 - o`, `13 - o`, `20 - o` are computed in 16-bit `unsigned`
arithmetic without underflow and lie in 0..20, the three lookups have a value, and the
frequency mapping has a value for all 7-bit row masks. -/
theorem C20_offset_in_range (p : Nat) (h0 : p ≠ 0) (hp : p ≤ 0x7F) :
    ∃ o, offset p = some o ∧
      p.testBit o = true ∧ (∀ i, i < o → p.testBit i = false) ∧ o ≤ 6 ∧
      (6 + UWORD - o % UWORD) % UWORD = 6 - o ∧
      (13 + UWORD - o % UWORD) % UWORD = 13 - o ∧
      (20 + UWORD - o % UWORD) % UWORD = 20 - o ∧
      6 - o < frequencies.length ∧ 13 - o < frequencies.length ∧
      20 - o < frequencies.length ∧
      lookup 6 p = some (frequencies.getD (6 - o) 0) ∧
      lookup 13 p = some (frequencies.getD (13 - o) 0) ∧
      lookup 20 p = some (frequencies.getD (20 - o) 0) ∧
      ∀ B C D : Nat, B ≤ 0x7F → C ≤ 0x7F → D ≤ 0x7F →
        ∃ v, mapFrequency B C D = some v := by
  obtain ⟨ho, hle⟩ := offset_eq_ctz p h0 hp
  obtain ⟨hbit, hlow⟩ := ctz_spec p h0 hp
  obtain ⟨l6, l13, l20⟩ := lookup_eq p h0 hp
  have hlen : frequencies.length = 21 := by decide
  refine ⟨ctz p, ho, hbit, hlow, hle, ?_, ?_, ?_, ?_, ?_, ?_, l6, l13, l20,
    fun B C D hB hC hD => ⟨_, mapFrequency_eq B C D hB hC hD⟩⟩
  · unfold UWORD; omega
  · unfold UWORD; omega
  · unfold UWORD; omega
  · rw [hlen]; omega
  · rw [hlen]; omega
  · rw [hlen]; omega

/-- C20 at the mask `0b0101000`: the offset is 3 and the three table indices are 3, 10
and 17. -/
theorem C20_offset_in_range_witness :
    (0x28 ≠ 0 ∧ 0x28 ≤ 0x7F) ∧ offset 0x28 = some 3 ∧
    lookup 6 0x28 = some 349 ∧ lookup 13 0x28 = some 698 ∧ lookup 20 0x28 = some 1397 ∧
    ∃ o, offset 0x28 = some o ∧
      (0x28).testBit o = true ∧ (∀ i, i < o → (0x28).testBit i = false) ∧ o ≤ 6 ∧
      (6 + UWORD - o % UWORD) % UWORD = 6 - o ∧
      (13 + UWORD - o % UWORD) % UWORD = 13 - o ∧
      (20 + UWORD - o % UWORD) % UWORD = 20 - o ∧
      6 - o < frequencies.length ∧ 13 - o < frequencies.length ∧
      20 - o < frequencies.length ∧
      lookup 6 0x28 = some (frequencies.getD (6 - o) 0) ∧
      lookup 13 0x28 = some (frequencies.getD (13 - o) 0) ∧
      lookup 20 0x28 = some (frequencies.getD (20 - o) 0) ∧
      ∀ B C D : Nat, B ≤ 0x7F → C ≤ 0x7F → D ≤ 0x7F →
        ∃ v, mapFrequency B C D = some v :=
  ⟨by decide, by decide, by decide, by decide, by decide,
   C20_offset_in_range 0x28 (by decide) (by decide)⟩

end Piano
